import Mathlib

/-!
Shallow embedding of the task-priority scoring engine
(src/backend/tasks/scoring.py) and verification of the frozen claims.

Modelling conventions:
* Python floats are modelled as exact rationals (`ℚ`); the transcendental
  arithmetic of the scorer (math.exp / math.log) is modelled over `ℝ`.
* Python `round(x, n)` is modelled with Mathlib `round` (round half away
  from zero on positives).  Python rounds halves to even; no claim below
  evaluates `round` at a tie, so the two agree on every value we touch.
* Dates are modelled as proleptic-Gregorian day ordinals (`Int`), the same
  representation `datetime.date.toordinal` uses; `date.fromisoformat` is
  modelled for the `YYYY-MM-DD` shape the application uses.
* Raw records are association lists of string keys to JSON-like values.
* `score_tasks` computes `today = date.today()` internally (line 38);
  the embedding necessarily takes that clock reading as an argument.
-/

/-- Scalar Python values as they occur in raw task records. -/
inductive Value where
  | null : Value
  | bool : Bool → Value
  | num : ℚ → Value
  | str : String → Value
deriving DecidableEq

/-- A raw field value: either a scalar or a Python list of scalars.
List ids are unhashable in Python and never reach the dict-keyed code;
nested lists inside `dependencies` are not modelled (no claim uses them). -/
inductive RawValue where
  | atom : Value → RawValue
  | arr : List Value → RawValue
deriving DecidableEq

/-- A raw task record: a Python dict with string keys (keys are unique in a
dict, so first-match association lookup is faithful). -/
abbrev RawRecord := List (String × RawValue)

/-- `str(v)` for scalar values, as used when coercing dependency ids.
Python renders floats like `3.5`; we render non-integral rationals as
fractions.  No claim depends on the rendering of non-string dependency
elements. -/
def valueToStr (v : Value) : String :=
  match v with
  | .null => "None"
  | .bool b => if b then "True" else "False"
  | .num q => if q.den = 1 then toString q.num else toString q
  | .str s => s

/-- `str(v)` for raw values (lists approximated; only used inside warning
texts, which no claim inspects beyond (non-)emptiness). -/
def rawToStr (v : RawValue) : String :=
  match v with
  | .atom a => valueToStr a
  | .arr _ => "[list]"

/-- `task.get(key) is None`: the key is absent or bound to `None`. -/
def rawMissing (task : RawRecord) (key : String) : Bool :=
  match task.lookup key with
  | none => true
  | some (.atom .null) => true
  | _ => false

/-- Value of one decimal digit character. -/
def digitVal (c : Char) : Nat := c.toNat - 48

/-- Numeric value of a block of decimal digit characters. -/
def digitsToNat (cs : List Char) : Nat :=
  cs.foldl (fun a c => 10 * a + digitVal c) 0

/-- `float(s)` on a string: optional sign, then digits with at most one
decimal point (Python additionally accepts exponents, infinities and
whitespace; those forms never occur in the claims and are not modelled). -/
def parseDecimal (s : String) : Option ℚ :=
  let p : (ℚ × List Char) :=
    match s.toList with
    | '-' :: rest => (-1, rest)
    | '+' :: rest => (1, rest)
    | cs => (1, cs)
  let intPart := p.2.takeWhile Char.isDigit
  let rest := p.2.dropWhile Char.isDigit
  match rest with
  | [] =>
    if intPart.isEmpty then none
    else some (p.1 * (digitsToNat intPart : ℚ))
  | '.' :: frac =>
    if frac.all Char.isDigit ∧ ¬(intPart.isEmpty ∧ frac.isEmpty) then
      some (p.1 * ((digitsToNat intPart : ℚ) +
        (digitsToNat frac : ℚ) / (10 : ℚ) ^ frac.length))
    else none
  | _ => none

/-- `float(v)` over raw values; `none` models a raised
TypeError/ValueError.  (`float(None)` also raises, but every call site
tests `is None` first.) -/
def toFloat (v : RawValue) : Option ℚ :=
  match v with
  | .atom (.num q) => some q
  | .atom (.bool b) => some (if b then 1 else 0)
  | .atom (.str s) => parseDecimal s
  | .atom .null => none
  | .arr _ => none

/-- Gregorian leap-year test. -/
def isLeapYear (y : Int) : Bool :=
  (y % 4 == 0 && y % 100 != 0) || y % 400 == 0

/-- Number of days in a month. -/
def daysInMonth (y m : Int) : Int :=
  if m = 2 then (if isLeapYear y then 29 else 28)
  else if m = 4 ∨ m = 6 ∨ m = 9 ∨ m = 11 then 30
  else 31

/-- Days in the months strictly before month `m` of a common year. -/
def monthOffset (m : Nat) : Int :=
  ([0, 0, 31, 59, 90, 120, 151, 181, 212, 243, 273, 304, 334].getD m 0 : Int)

/-- Proleptic-Gregorian day ordinal of a calendar date (day 1 is
0001-01-01), exactly `datetime.date(y, m, d).toordinal()`. -/
def dateToOrdinal (y m d : Int) : Int :=
  365 * (y - 1) + (y - 1) / 4 - (y - 1) / 100 + (y - 1) / 400 +
    monthOffset m.toNat + (if 2 < m ∧ isLeapYear y then 1 else 0) + d

/-- `datetime.fromisoformat(s).date()` for the `YYYY-MM-DD` shape used by
the application (other ISO forms with time components are not modelled:
every theorem below that mentions parsing is insensitive to which extra
strings parse). -/
def parseISODate (s : String) : Option Int :=
  let cs := s.toList
  if cs.length = 10 ∧ cs.getD 4 ' ' = '-' ∧ cs.getD 7 ' ' = '-' then
    let ys := cs.take 4
    let ms := (cs.drop 5).take 2
    let ds := cs.drop 8
    if (ys ++ ms ++ ds).all Char.isDigit then
      let y : Int := (digitsToNat ys : Int)
      let mo : Int := (digitsToNat ms : Int)
      let da : Int := (digitsToNat ds : Int)
      if 1 ≤ y ∧ 1 ≤ mo ∧ mo ≤ 12 ∧ 1 ≤ da ∧ da ≤ daysInMonth y mo then
        some (dateToOrdinal y mo da)
      else none
    else none
  else none

/-- `s.replace("Z", "+00:00")`: the pattern is a single character, so a
character-wise rewrite is exact.  (Defined from first principles because
the library replace does not evaluate inside the kernel.) -/
def replaceZ (s : String) : String :=
  String.mk (s.toList.foldr
    (fun c acc =>
      if c = 'Z' then '+' :: '0' :: '0' :: ':' :: '0' :: '0' :: acc
      else c :: acc) [])

/-- Python `round(x, 2)` over exact rationals. -/
def roundQ2 (x : ℚ) : ℚ := (round (x * 100) : ℚ) / 100

/-- A validated task (the dict built by `_validate_task`). -/
structure VTask where
  id : RawValue
  title : RawValue
  past_due : Bool
  dependency_issue : Bool
  validation_warnings : List String
  incomplete : Bool
  due_date : Int
  estimated_hours : ℚ
  importance : ℚ
  dependencies : List String
  confidence : ℚ
deriving DecidableEq

/-- Warning text for an invalid or missing due date (line 106). -/
def dueMsg (ts : String) : String :=
  "Task " ++ ts ++ ": Invalid or missing due date."

/-- Warning text for missing estimated hours (line 115). -/
def hoursMsg (ts : String) : String :=
  "Task " ++ ts ++ ": Missing estimated_hours. Using default 1."

/-- Warning text for missing importance (line 125). -/
def impMsg (ts : String) : String :=
  "Task " ++ ts ++ ": Missing importance. Using default 5."

/-- Warning text for a non-list dependencies field (line 138). -/
def depsMsg (ts : String) : String :=
  "Task " ++ ts ++ ": Invalid dependencies format. Using empty list."

/-- The `str(title)` used inside the f-string warnings, with the default
of line 90. -/
def titleStr (task : RawRecord) (idx : Nat) : String :=
  rawToStr ((task.lookup "title").getD
    (.atom (.str ("Untitled Task " ++ toString idx))))

/-- The raw dependencies value with the `.get('dependencies', [])` default
(line 133). -/
def rawDeps (task : RawRecord) : RawValue :=
  (task.lookup "dependencies").getD (.arr [])

/-- `missing_count` (lines 144-148): how many of the two soft fields are
absent or `None` in the raw record. -/
def missingCountQ (task : RawRecord) : ℚ :=
  (if rawMissing task "estimated_hours" then 1 else 0) +
    (if rawMissing task "importance" then 1 else 0)

/-- Outcome of the `fromisoformat` attempt of lines 100-102: `none` models
the raised exception (absent key, non-string value, or parse failure). -/
def dueParsedOf (task : RawRecord) : Option Int :=
  match task.lookup "due_date" with
  | some (.atom (.str s)) => parseISODate (replaceZ s)
  | _ => none

/-- The due-date step (lines 97-110): parsed date, past_due flag, warnings,
incomplete flag.  A non-string value makes `.replace` raise, which the bare
`except` catches like a parse failure. -/
def dueStep (task : RawRecord) (ts : String) (today : Int) :
    Int × Bool × List String × Bool :=
  match dueParsedOf task with
  | some d => (d, decide (d < today), [], false)
  | none => (today, false, [dueMsg ts], true)

/-- A soft numeric field step (lines 112-130): default and warn when the
raw value is absent or `None`, otherwise `float(...)`, whose failure is an
uncaught exception. -/
def softFloatStep (task : RawRecord) (key : String) (deflt : ℚ)
    (msg : String) : Except String (ℚ × List String × Bool) :=
  if rawMissing task key then .ok (deflt, [msg], true)
  else
    match toFloat ((task.lookup key).getD (.atom .null)) with
    | some q => .ok (q, [], false)
    | none => .error ("could not convert value to float: " ++ key)

/-- The dependencies step (lines 132-141). -/
def depsStep (task : RawRecord) (ts : String) :
    List String × List String × Bool :=
  match rawDeps task with
  | .arr l => (l.map valueToStr, [], false)
  | .atom _ => ([], [depsMsg ts], true)

/-- `_validate_task(task, idx, today)` (scoring.py lines 86-153).
`Except.error` models an uncaught Python exception: `float(...)` raises on
a value that is neither numeric nor a numeric string, and the
`estimated_hours` coercion runs (and can raise) before the `importance`
one. -/
def _validate_task (task : RawRecord) (idx : Nat) (today : Int) :
    Except String (VTask × List String) :=
  match softFloatStep task "estimated_hours" 1 (hoursMsg (titleStr task idx)) with
  | .error e => .error e
  | .ok hoursRes =>
    match softFloatStep task "importance" 5 (impMsg (titleStr task idx)) with
    | .error e => .error e
    | .ok impRes =>
      -- confidence = round(max(0, 1 - 0.25 * missing_count), 2), lines 143-150
      .ok ({ id := (task.lookup "id").getD
               (.atom (.str ("task_" ++ toString idx)))
             title := (task.lookup "title").getD
               (.atom (.str ("Untitled Task " ++ toString idx)))
             past_due := (dueStep task (titleStr task idx) today).2.1
             dependency_issue := false
             validation_warnings :=
               (dueStep task (titleStr task idx) today).2.2.1 ++ hoursRes.2.1 ++
                 impRes.2.1 ++ (depsStep task (titleStr task idx)).2.1
             incomplete := (dueStep task (titleStr task idx) today).2.2.2 ||
               hoursRes.2.2 || impRes.2.2 || (depsStep task (titleStr task idx)).2.2
             due_date := (dueStep task (titleStr task idx) today).1
             estimated_hours := hoursRes.1
             importance := impRes.1
             dependencies := (depsStep task (titleStr task idx)).1
             confidence := roundQ2 (max 0 (1 - (1/4) * missingCountQ task)) },
        (dueStep task (titleStr task idx) today).2.2.1 ++ hoursRes.2.1 ++
          impRes.2.1 ++ (depsStep task (titleStr task idx)).2.1)

/-- The validation loop of `score_tasks` (lines 44-49), starting at index
`idx`.  Every validated dict is non-empty hence truthy in Python, so the
`if validated_task:` guard always keeps the task; the model keeps them
all.  Warnings accumulate in input order. -/
def validateAllFrom (idx : Nat) (today : Int) :
    List RawRecord → Except String (List VTask × List String)
  | [] => .ok ([], [])
  | r :: rest => do
    let (vt, ws) ← _validate_task r idx today
    let (vts, wss) ← validateAllFrom (idx + 1) today rest
    pure (vt :: vts, ws ++ wss)

/-- Mutable state of `_detect_circular_dependencies` (the `visited`,
`rec_stack` and `circular_tasks` sets, lines 160-162). -/
structure DetectSt where
  visited : Finset RawValue
  recStack : Finset RawValue
  circular : Finset RawValue
deriving DecidableEq

/-- `task_id_map` of a batch: a Python dict comprehension keyed by task id,
where a later task with the same id overwrites an earlier one. -/
def taskIdMap (tasks : List VTask) (v : RawValue) : Option VTask :=
  tasks.reverse.find? (fun t => t.id == v)

/-- A dependency id string as a dict key (dependency ids are strings after
validation; a string key only ever equals a string id). -/
def depKey (d : String) : RawValue := .atom (.str d)

/-- The dependency loop of the DFS helper (lines 180-183): for each
dependency present in the id map, recurse with a copy of the current path
and add the current task to `circular_tasks` if the child found a cycle.
`rec` is the recursive call at the remaining fuel. -/
def depFold (rec : RawValue → Finset RawValue → DetectSt → DetectSt × Bool)
    (m : RawValue → Option VTask) (tid : RawValue) (path : Finset RawValue) :
    List String → DetectSt → DetectSt
  | [], st => st
  | d :: rest, st =>
    if (m (depKey d)).isSome then
      depFold rec m tid path rest
        (if (rec (depKey d) path st).2 then
          { (rec (depKey d) path st).1 with
            circular := insert tid ((rec (depKey d) path st).1).circular }
         else (rec (depKey d) path st).1)
    else depFold rec m tid path rest st

/-- The DFS helper `dfs(task_id, path)` (lines 164-186).  The recursion
depth is bounded by the number of distinct ids plus one, so running it
with fuel `tasks.length + 1` (as `_detect_circular_dependencies` does)
never exhausts the fuel; the fuel-0 branch is dead code kept total. -/
def dfsVisit (m : RawValue → Option VTask) :
    Nat → RawValue → Finset RawValue → DetectSt → DetectSt × Bool
  | 0, _, _, st => (st, false)
  | fuel + 1, tid, path, st =>
    if tid ∈ st.recStack then
      ({ st with circular := st.circular ∪ path }, true)
    else if tid ∈ st.visited then (st, false)
    else
      let st1 : DetectSt :=
        ⟨insert tid st.visited, insert tid st.recStack, st.circular⟩
      let path1 := insert tid path
      let st2 :=
        match m tid with
        | some task =>
          depFold (fun v p s => dfsVisit m fuel v p s) m tid path1
            task.dependencies st1
        | none => st1
      (⟨st2.visited, st2.recStack.erase tid, st2.circular⟩, false)

/-- Ids of a batch as a finite set; every id the map resolves belongs to
it, which bounds the DFS depth. -/
def idsFinset (tasks : List VTask) : Finset RawValue :=
  (tasks.map (·.id)).toFinset

/-- Verification invariant for a mutually dependent pair `x, y`: whenever
one of them has been fully explored (visited and no longer on the
recursion stack), both have been flagged as circular. -/
def GoodPair (x y : RawValue) (st : DetectSt) : Prop :=
  (x ∈ st.visited → x ∉ st.recStack →
    x ∈ st.circular ∧ y ∈ st.circular) ∧
  (y ∈ st.visited → y ∉ st.recStack →
    x ∈ st.circular ∧ y ∈ st.circular)

/-- The driver loop of `_detect_circular_dependencies` (lines 188-190). -/
def detectLoop (m : RawValue → Option VTask) (fuel : Nat) :
    List VTask → DetectSt → DetectSt
  | [], st => st
  | t :: rest, st =>
    if t.id ∈ st.visited then detectLoop m fuel rest st
    else detectLoop m fuel rest ((dfsVisit m fuel t.id ∅ st).1)

/-- `_detect_circular_dependencies(tasks)` (lines 157-192). -/
def _detect_circular_dependencies (tasks : List VTask) : Finset RawValue :=
  (detectLoop (taskIdMap tasks) (tasks.length + 1) tasks ⟨∅, ∅, ∅⟩).circular

/-- `_calculate_dependency_impact(tasks)` (lines 195-204) as the function
the returned dict represents: ids absent from the batch map to the dict
default 0 used at the call site. -/
def _calculate_dependency_impact (tasks : List VTask) (v : RawValue) : Nat :=
  if v ∈ tasks.map (·.id) then
    tasks.foldl (fun acc t => acc + t.dependencies.countP (fun d => depKey d == v)) 0
  else 0

/-- The four-factor weight vector. -/
structure Weights where
  urgency : ℚ
  importance : ℚ
  effort : ℚ
  dependency : ℚ
deriving DecidableEq

/-- Sum of the four weights (`sum(weights.values())`). -/
def Weights.total (w : Weights) : ℚ :=
  w.urgency + w.importance + w.effort + w.dependency

/-- The named strategy presets; an unknown name falls back to `smart`
(`strategies.get(strategy, strategies["smart"])`, line 239). -/
def strategyPreset (strategy : String) : Weights :=
  if strategy = "smart" then ⟨0.35, 0.35, 0.15, 0.15⟩
  else if strategy = "fast" then ⟨0.20, 0.20, 0.50, 0.10⟩
  else if strategy = "impact" then ⟨0.15, 0.60, 0.10, 0.15⟩
  else if strategy = "deadline" then ⟨0.60, 0.20, 0.05, 0.15⟩
  else ⟨0.35, 0.35, 0.15, 0.15⟩

/-- Replace each of the four preset entries whose key occurs in the
override dict (lines 243-245). -/
def applyOverrides (w : Weights) (ov : List (String × ℚ)) : Weights :=
  { urgency := (ov.lookup "urgency").getD w.urgency
    importance := (ov.lookup "importance").getD w.importance
    effort := (ov.lookup "effort").getD w.effort
    dependency := (ov.lookup "dependency").getD w.dependency }

/-- `_get_strategy_weights(strategy, weight_overrides)` (lines 207-252).
`none` models passing `None`; an empty dict is falsy in Python, so both
skip the override block. -/
def _get_strategy_weights (strategy : String)
    (weight_overrides : Option (List (String × ℚ))) : Weights :=
  match weight_overrides with
  | none => strategyPreset strategy
  | some ov =>
    if ov.isEmpty then strategyPreset strategy
    else if 0 < (applyOverrides (strategyPreset strategy) ov).total then
      ⟨(applyOverrides (strategyPreset strategy) ov).urgency /
          (applyOverrides (strategyPreset strategy) ov).total,
        (applyOverrides (strategyPreset strategy) ov).importance /
          (applyOverrides (strategyPreset strategy) ov).total,
        (applyOverrides (strategyPreset strategy) ov).effort /
          (applyOverrides (strategyPreset strategy) ov).total,
        (applyOverrides (strategyPreset strategy) ov).dependency /
          (applyOverrides (strategyPreset strategy) ov).total⟩
    else applyOverrides (strategyPreset strategy) ov

/-- Python `round(x, 2)` over the reals. -/
noncomputable def round2R (x : ℝ) : ℝ := (round (x * 100) : ℝ) / 100

/-- Python `round(x, 4)` over the reals. -/
noncomputable def round4R (x : ℝ) : ℝ := (round (x * 10000) : ℝ) / 10000

/-- The overdue branch of the urgency sub-score (lines 268-273):
`round(min(1, max(0, 0.20 + 0.80 * exp(-d / 14))), 4)`. -/
noncomputable def overdueUrgency (days_overdue : Int) : ℝ :=
  round4R (min 1 (max 0
    (0.20 + (1 - 0.20) * Real.exp (-(days_overdue : ℝ) / 14))))

/-- The urgency sub-score (lines 264-297); `days_until_due` is
`t.due_date - today` throughout. -/
noncomputable def urgencyScore (t : VTask) (today : Int) : ℝ :=
  if t.past_due then overdueUrgency (today - t.due_date)
  else if t.due_date - today ≤ 0 then 0.98
  else if t.due_date - today ≤ 1 then 0.95
  else if t.due_date - today ≤ 3 then 0.85
  else if t.due_date - today ≤ 7 then 0.70
  else if t.due_date - today ≤ 14 then 0.50
  else if t.due_date - today ≤ 30 then 0.30
  else max 0.05 (1 / (1 + Real.log (((t.due_date - today : Int) : ℝ) / 7)))

/-- The effort sub-score (lines 312-314). -/
noncomputable def effortScore (t : VTask) : ℝ :=
  1 - min ((t.estimated_hours : ℝ) / 40) 1

/-- The dependency sub-score (lines 328-330). -/
noncomputable def dependencyScore (blocking_count : Nat) : ℝ :=
  min ((blocking_count : ℝ) / 5) 1

/-- `_calculate_task_score` (lines 255-376), returning the numeric score.
The accompanying explanation string is presentation-only (spec §9) and no
claim refers to it, so it is not modelled. -/
noncomputable def _calculate_task_score (t : VTask) (today : Int)
    (dependency_impact : RawValue → Nat) (w : Weights) : ℝ :=
  round2R (100 * ((w.urgency : ℝ) * urgencyScore t today +
    (w.importance : ℝ) * ((t.importance : ℝ) / 10) +
    (w.effort : ℝ) * effortScore t +
    (w.dependency : ℝ) * dependencyScore (dependency_impact t.id)))

/-- `_get_priority_label(score)` (lines 379-386). -/
noncomputable def _get_priority_label (score : ℝ) : String :=
  if 75 ≤ score then "High" else if 50 ≤ score then "Medium" else "Low"

/-- A scored task: the validated dict after `score`, `explanation` and
`priority` are attached (explanation not modelled, see above). -/
structure STask extends VTask where
  score : ℝ
  priority : String

/-- Stable insertion of a task into a list sorted by descending score:
it lands before the first element whose score is not larger. -/
noncomputable def insertScored (t : STask) : List STask → List STask
  | [] => [t]
  | h :: rest =>
    if h.score ≤ t.score then t :: h :: rest else h :: insertScored t rest

/-- `validated_tasks.sort(key=lambda t: t["score"], reverse=True)`
(line 78): a stable descending sort by score. -/
noncomputable def sortByScoreDesc : List STask → List STask
  | [] => []
  | h :: rest => insertScored h (sortByScoreDesc rest)

/-- The result dict of `score_tasks`. -/
structure ScoreResult where
  tasks : List STask
  warnings : List String

/-- The warning for a non-empty circular-dependency set (line 57); Python
interpolates the set with unspecified element order, which no claim
inspects. -/
def circularWarning : String :=
  "Circular dependencies detected involving tasks: <set>"

/-- The circular-dependency marking pass (lines 55-60): set
`dependency_issue` on every task whose id is in the detector output. -/
def markCircular (vts : List VTask) : List VTask :=
  vts.map fun t =>
    if t.id ∈ _detect_circular_dependencies vts then
      { t with dependency_issue := true }
    else t

/-- The warning list after the cycle check (lines 56-57): one warning is
appended exactly when the detector returned a non-empty set. -/
def warningsAfterCycle (vts : List VTask) (ws : List String) : List String :=
  if (_detect_circular_dependencies vts).Nonempty then ws ++ [circularWarning]
  else ws

/-- The scoring pass (lines 63-75): attach score and priority to every
(marked) task; the impact dict is computed from the same list. -/
noncomputable def scorePass (marked : List VTask) (today : Int)
    (w : Weights) : List STask :=
  marked.map fun t =>
    { t with
      score := _calculate_task_score t today
        (_calculate_dependency_impact marked) w
      priority := _get_priority_label (_calculate_task_score t today
        (_calculate_dependency_impact marked) w) : STask }

/-- `score_tasks(tasks, strategy, weight_overrides)` (lines 13-83).
`today` is the value of the `date.today()` call at line 38, which the
function reads from the process clock; the embedding takes it as an
argument.  `Except.error` models an uncaught exception escaping to the
caller. -/
noncomputable def score_tasks (tasks : List RawRecord) (strategy : String)
    (weight_overrides : Option (List (String × ℚ))) (today : Int) :
    Except String ScoreResult :=
  match validateAllFrom 0 today tasks with
  | .error e => .error e
  | .ok (validated, warnings0) =>
    if validated.isEmpty then .ok ⟨[], warnings0⟩
    else
      .ok ⟨sortByScoreDesc (scorePass (markCircular validated) today
          (_get_strategy_weights strategy weight_overrides)),
        warningsAfterCycle validated warnings0⟩

/-!
Spec-side notion of cycle participation, used to compare the detector
against the specification (§3, §4.2: "`dependency_issue` ... set true only
if the task participates in a detected cycle").
-/

/-- Successor ids of `v` in the dependency graph of the spec (§4.2): an
edge `task → dep` for each dependency id matching a task of the batch;
dangling ids are ignored. -/
def depSuccs (tasks : List VTask) (v : RawValue) : Finset RawValue :=
  match taskIdMap tasks v with
  | some t =>
    ((t.dependencies.filter
        (fun d => (taskIdMap tasks (depKey d)).isSome)).map depKey).toFinset
  | none => ∅

/-- One monotone expansion step of forward reachability. -/
def reachStep (tasks : List VTask) (s : Finset RawValue) : Finset RawValue :=
  s ∪ s.biUnion (depSuccs tasks)

/-- Ids reachable from `s` along dependency edges (iterating one batch
length of steps saturates every simple path). -/
def reachableFrom (tasks : List VTask) (s : Finset RawValue) :
    Finset RawValue :=
  (reachStep tasks)^[tasks.length] s

/-- The spec notion: `v` lies on a dependency cycle, i.e. `v` is reachable
from one of its own successors. -/
def onDependencyCycle (tasks : List VTask) (v : RawValue) : Bool :=
  v ∈ reachableFrom tasks (depSuccs tasks v)

/-!
Concrete inputs used by counterexamples and witnesses.
-/

/-- Day ordinal of 2024-06-01. -/
def day0 : Int := dateToOrdinal 2024 6 1

/-- A fully specified raw record whose importance is far above the nominal
1-10 scale (normalization performs no range check, line 130). -/
def recBigImportance : RawRecord :=
  [("id", .atom (.str "t1")), ("title", .atom (.str "T1")),
   ("due_date", .atom (.str "2024-06-01")),
   ("estimated_hours", .atom (.num 2)),
   ("importance", .atom (.num 100)),
   ("dependencies", .arr [])]

/-- A raw record whose `estimated_hours` is a non-numeric string:
`float("abc")` raises an uncaught ValueError (line 120). -/
def recBadHours : RawRecord := [("estimated_hours", .atom (.str "abc"))]

/-- A fully specified well-formed raw record. -/
def recComplete : RawRecord :=
  [("id", .atom (.str "c1")), ("title", .atom (.str "C1")),
   ("due_date", .atom (.str "2024-06-03")),
   ("estimated_hours", .atom (.num 3)),
   ("importance", .atom (.num 7)),
   ("dependencies", .arr [])]

/-- A raw record missing both soft fields. -/
def recBothMissing : RawRecord :=
  [("id", .atom (.str "m1")), ("due_date", .atom (.str "2024-06-03"))]

/-- Validated task `A` depending on `B` (lead-in to a cycle, itself on no
cycle). -/
def taskLeadA : VTask :=
  { id := .atom (.str "A"), title := .atom (.str "A"), past_due := false
    dependency_issue := false, validation_warnings := [], incomplete := false
    due_date := day0, estimated_hours := 1, importance := 5
    dependencies := ["B"], confidence := 1 }

/-- Validated task `B` depending on `C`. -/
def taskLeadB : VTask :=
  { taskLeadA with id := .atom (.str "B"), title := .atom (.str "B")
                   dependencies := ["C"] }

/-- Validated task `C` depending back on `B`, closing the cycle `B → C → B`. -/
def taskLeadC : VTask :=
  { taskLeadA with id := .atom (.str "C"), title := .atom (.str "C")
                   dependencies := ["B"] }

/-- A batch whose only cycle is `B → C → B`; `A` merely leads into it. -/
def leadInBatch : List VTask := [taskLeadA, taskLeadB, taskLeadC]

/-- Raw record `A` of a mutual dependency pair. -/
def recMutualA : RawRecord :=
  [("id", .atom (.str "A")), ("title", .atom (.str "A")),
   ("due_date", .atom (.str "2024-06-03")),
   ("estimated_hours", .atom (.num 2)),
   ("importance", .atom (.num 6)),
   ("dependencies", .arr [.str "B"])]

/-- Raw record `B` of a mutual dependency pair. -/
def recMutualB : RawRecord :=
  [("id", .atom (.str "B")), ("title", .atom (.str "B")),
   ("due_date", .atom (.str "2024-06-03")),
   ("estimated_hours", .atom (.num 2)),
   ("importance", .atom (.num 6)),
   ("dependencies", .arr [.str "A"])]

/-- A second record reusing id `A` with no dependencies.  It shadows the
first record in `task_id_map` (a Python dict keeps the last binding), so
the detector never sees the edge `A → B`. -/
def recShadowA : RawRecord :=
  [("id", .atom (.str "A")), ("title", .atom (.str "A2")),
   ("due_date", .atom (.str "2024-06-03")),
   ("estimated_hours", .atom (.num 2)),
   ("importance", .atom (.num 6)),
   ("dependencies", .arr [])]

/-- A batch containing the mutual pair `A ↔ B` plus a duplicate-id record
that shadows `A`. -/
def shadowBatch : List RawRecord := [recMutualA, recMutualB, recShadowA]

/-- The validated form of `recBigImportance` (the confidence field is
spelled the way the engine computes it, so the equation with
`_validate_task` holds by `rfl`). -/
def vtBig : VTask :=
  { id := .atom (.str "t1"), title := .atom (.str "T1"), past_due := false
    dependency_issue := false, validation_warnings := [], incomplete := false
    due_date := day0, estimated_hours := 2, importance := 100
    dependencies := []
    confidence := roundQ2 (max 0 (1 - (1/4) * missingCountQ recBigImportance)) }

/-- A validated task overdue by 200 days relative to `day0`. -/
def taskOverdue200 : VTask :=
  { taskLeadA with id := .atom (.str "o200"), title := .atom (.str "o200")
                   due_date := day0 - 200, past_due := true
                   dependencies := [] }

/-- A validated task overdue by 210 days relative to `day0`. -/
def taskOverdue210 : VTask :=
  { taskLeadA with id := .atom (.str "o210"), title := .atom (.str "o210")
                   due_date := day0 - 210, past_due := true
                   dependencies := [] }

/-- The validated form of `recMutualA` (confidence spelled as computed,
for definitional equality with `_validate_task`). -/
def vtMutualA : VTask :=
  { id := .atom (.str "A"), title := .atom (.str "A"), past_due := false
    dependency_issue := false, validation_warnings := [], incomplete := false
    due_date := dateToOrdinal 2024 6 3, estimated_hours := 2, importance := 6
    dependencies := ["B"]
    confidence := roundQ2 (max 0 (1 - (1/4) * missingCountQ recMutualA)) }

/-- The validated form of `recMutualB`. -/
def vtMutualB : VTask :=
  { vtMutualA with id := .atom (.str "B"), title := .atom (.str "B")
                   dependencies := ["A"]
                   confidence := roundQ2 (max 0
                     (1 - (1/4) * missingCountQ recMutualB)) }

/-- The validated form of `recShadowA` (same id as `vtMutualA`, no
dependencies). -/
def vtShadowA : VTask :=
  { vtMutualA with title := .atom (.str "A2"), dependencies := []
                   confidence := roundQ2 (max 0
                     (1 - (1/4) * missingCountQ recShadowA)) }

/-!
General helper lemmas.
-/

/-- Rounding to the nearest integer is monotone. -/
theorem roundMono {α : Type} [LinearOrderedField α] [FloorRing α] {x y : α}
    (h : x ≤ y) : round x ≤ round y := by
  rw [round_eq, round_eq]
  exact Int.floor_mono (by linarith)

/-- Rounding to two decimals fixes every rational that is an exact
multiple of a hundredth. -/
theorem roundQ2_exact (x : ℚ) (k : ℤ) (h : x * 100 = (k : ℚ)) :
    roundQ2 x = x := by
  unfold roundQ2
  rw [h, round_intCast, ← h]
  ring

/-- A successful soft-field step, given that the raw value is missing or
float-coercible; when it is missing the documented default and warning are
produced. -/
theorem softFloatStep_ok (task : RawRecord) (key : String) (deflt : ℚ)
    (msg : String)
    (h : rawMissing task key = true ∨
      (toFloat ((task.lookup key).getD (.atom .null))).isSome = true) :
    ∃ r, softFloatStep task key deflt msg = .ok r ∧
      (rawMissing task key = true → r = (deflt, [msg], true)) := by
  unfold softFloatStep
  cases hm : rawMissing task key with
  | true => exact ⟨(deflt, [msg], true), by simp, fun _ => rfl⟩
  | false =>
    rcases h with h | h
    · exact absurd h (by simp [hm])
    · cases ht : toFloat ((task.lookup key).getD (.atom .null)) with
      | some q => exact ⟨(q, [], false), by simp [ht], by simp⟩
      | none => rw [ht] at h; exact absurd h (by simp)

/-- Shape of every successful validation: the task record with all its
fields as computed by the individual steps. -/
theorem _validate_task_ok (task : RawRecord) (idx : Nat) (today : Int)
    (hr eh : ℚ × List String × Bool)
    (hh : softFloatStep task "estimated_hours" 1 (hoursMsg (titleStr task idx)) = .ok hr)
    (hi : softFloatStep task "importance" 5 (impMsg (titleStr task idx)) = .ok eh) :
    _validate_task task idx today =
      .ok ({ id := (task.lookup "id").getD
               (.atom (.str ("task_" ++ toString idx)))
             title := (task.lookup "title").getD
               (.atom (.str ("Untitled Task " ++ toString idx)))
             past_due := (dueStep task (titleStr task idx) today).2.1
             dependency_issue := false
             validation_warnings :=
               (dueStep task (titleStr task idx) today).2.2.1 ++ hr.2.1 ++
                 eh.2.1 ++ (depsStep task (titleStr task idx)).2.1
             incomplete := (dueStep task (titleStr task idx) today).2.2.2 ||
               hr.2.2 || eh.2.2 || (depsStep task (titleStr task idx)).2.2
             due_date := (dueStep task (titleStr task idx) today).1
             estimated_hours := hr.1
             importance := eh.1
             dependencies := (depsStep task (titleStr task idx)).1
             confidence := roundQ2 (max 0 (1 - (1/4) * missingCountQ task)) },
        (dueStep task (titleStr task idx) today).2.2.1 ++ hr.2.1 ++ eh.2.1 ++
          (depsStep task (titleStr task idx)).2.1) := by
  unfold _validate_task
  rw [hh, hi]

/-- Validation always clears the `dependency_issue` flag (line 92). -/
theorem _validate_task_issue_false (task : RawRecord) (idx : Nat)
    (today : Int) (vt : VTask) (ws : List String)
    (h : _validate_task task idx today = .ok (vt, ws)) :
    vt.dependency_issue = false := by
  unfold _validate_task at h
  split at h
  · exact absurd h (by simp)
  · split at h
    · exact absurd h (by simp)
    · simp only [Except.ok.injEq, Prod.mk.injEq] at h
      rw [← h.1]

/-- Every successful validation stores the returned warning list on the
task itself (line 152). -/
theorem _validate_task_warnings (task : RawRecord) (idx : Nat)
    (today : Int) (vt : VTask) (ws : List String)
    (h : _validate_task task idx today = .ok (vt, ws)) :
    vt.validation_warnings = ws := by
  unfold _validate_task at h
  split at h
  · exact absurd h (by simp)
  · split at h
    · exact absurd h (by simp)
    · simp only [Except.ok.injEq, Prod.mk.injEq] at h
      rw [← h.1, ← h.2]

/-!
Claim C2 — the Normalizer is NOT total: `float()` raises on a malformed
(present, non-numeric) `estimated_hours` or `importance`, so the claim is
corrected: totality holds exactly when the two soft fields are absent,
null, or float-coercible; such fields are repaired with their documented
defaults and warnings.
-/

/-- C2 (counterexample): on a record whose `estimated_hours` is the string
"abc", `_validate_task` raises (models the uncaught ValueError of
`float("abc")`, line 120) instead of returning a repaired ValidatedTask,
refuting "never raises". -/
theorem C2_validate_not_total :
    _validate_task recBadHours 0 day0 =
      .error "could not convert value to float: estimated_hours" := rfl

/-- C2 (amended): for every raw record whose `estimated_hours` and
`importance` are each absent, null, or float-coercible, `_validate_task`
returns a ValidatedTask and never fails, and each missing or malformed
soft field (due_date, estimated_hours, importance, dependencies) is
repaired with its documented default and recorded as a warning. -/
theorem C2_validate_total_on_coercible (task : RawRecord) (idx : Nat)
    (today : Int)
    (hh : rawMissing task "estimated_hours" = true ∨
      (toFloat ((task.lookup "estimated_hours").getD (.atom .null))).isSome = true)
    (hi : rawMissing task "importance" = true ∨
      (toFloat ((task.lookup "importance").getD (.atom .null))).isSome = true) :
    ∃ vt ws, _validate_task task idx today = .ok (vt, ws) ∧
      vt.validation_warnings = ws ∧
      (rawMissing task "estimated_hours" = true →
        vt.estimated_hours = 1 ∧ hoursMsg (titleStr task idx) ∈ ws) ∧
      (rawMissing task "importance" = true →
        vt.importance = 5 ∧ impMsg (titleStr task idx) ∈ ws) ∧
      (dueParsedOf task = none →
        vt.due_date = today ∧ vt.past_due = false ∧
          dueMsg (titleStr task idx) ∈ ws) ∧
      ((∀ l, rawDeps task ≠ .arr l) →
        vt.dependencies = [] ∧ depsMsg (titleStr task idx) ∈ ws) := by
  obtain ⟨hr, hok, hdef⟩ :=
    softFloatStep_ok task "estimated_hours" 1 (hoursMsg (titleStr task idx)) hh
  obtain ⟨ir, iok, idef⟩ :=
    softFloatStep_ok task "importance" 5 (impMsg (titleStr task idx)) hi
  refine ⟨_, _, _validate_task_ok task idx today hr ir hok iok, rfl,
    ?_, ?_, ?_, ?_⟩
  · intro hm
    rw [hdef hm]
    exact ⟨rfl, by simp [List.mem_append]⟩
  · intro hm
    rw [idef hm]
    exact ⟨rfl, by simp [List.mem_append]⟩
  · intro hdue
    unfold dueStep
    rw [hdue]
    exact ⟨rfl, rfl, by simp [List.mem_append]⟩
  · intro hdeps
    have hstep : depsStep task (titleStr task idx) =
        ([], [depsMsg (titleStr task idx)], true) := by
      unfold depsStep
      cases hrd : rawDeps task with
      | arr l => exact absurd hrd (hdeps l)
      | atom a => rfl
    rw [hstep]
    exact ⟨rfl, by simp [List.mem_append]⟩

/-- C2 (witness): the amended theorem applied to the concrete record that
misses both soft fields and carries no due date. -/
theorem C2_validate_total_on_coercible_witness :
    ∃ vt ws, _validate_task recBothMissing 0 day0 = .ok (vt, ws) ∧
      vt.estimated_hours = 1 ∧ vt.importance = 5 := by
  obtain ⟨vt, ws, hok, _, hh, hi, _, _⟩ :=
    C2_validate_total_on_coercible recBothMissing 0 day0
      (Or.inl (by decide)) (Or.inl (by decide))
  exact ⟨vt, ws, hok, (hh (by decide)).1, (hi (by decide)).1⟩

/-!
Claim C7 — confidence is `round(max(0, 1 - 0.25 * missing_count), 2)`
with `missing_count` counting exactly the absent-or-null `estimated_hours`
and `importance` of the raw record; both missing gives 0.5, none missing
gives 1.0.  Confirmed.
-/

/-- C7: every successful validation computes
`confidence = round(max(0, 1 - 0.25 * missing_count), 2)`, where
`missing_count` counts exactly the absent-or-null occurrences of
`estimated_hours` and `importance` in the raw record; with both fields
missing the confidence is 0.5 and with both present it is 1.0. -/
theorem C7_confidence_formula (task : RawRecord) (idx : Nat) (today : Int)
    (vt : VTask) (ws : List String)
    (h : _validate_task task idx today = .ok (vt, ws)) :
    vt.confidence = roundQ2 (max 0 (1 - (1/4) * missingCountQ task)) ∧
    (rawMissing task "estimated_hours" = true →
      rawMissing task "importance" = true → vt.confidence = 1/2) ∧
    (rawMissing task "estimated_hours" = false →
      rawMissing task "importance" = false → vt.confidence = 1) := by
  have hconf : vt.confidence = roundQ2 (max 0 (1 - (1/4) * missingCountQ task)) := by
    unfold _validate_task at h
    split at h
    · exact absurd h (by simp)
    · split at h
      · exact absurd h (by simp)
      · simp only [Except.ok.injEq, Prod.mk.injEq] at h
        rw [← h.1]
  refine ⟨hconf, ?_, ?_⟩
  · intro h1 h2
    rw [hconf]
    unfold missingCountQ
    rw [h1, h2]
    have e1 : (max 0 (1 - (1/4) * ((if true = true then (1:ℚ) else 0) +
        if true = true then (1:ℚ) else 0))) = 1/2 := by norm_num
    rw [e1, roundQ2_exact (1/2) 50 (by norm_num)]
  · intro h1 h2
    rw [hconf]
    unfold missingCountQ
    rw [h1, h2]
    have e1 : (max 0 (1 - (1/4) * ((if false = true then (1:ℚ) else 0) +
        if false = true then (1:ℚ) else 0))) = 1 := by norm_num
    rw [e1, roundQ2_exact 1 100 (by norm_num)]

/-- C7 (witness): the two advertised endpoint values on concrete records:
0.5 when both soft fields are missing, 1.0 when fully specified. -/
theorem C7_confidence_formula_witness :
    ∃ vt1 ws1 vt2 ws2,
      _validate_task recBothMissing 0 day0 = .ok (vt1, ws1) ∧
      vt1.confidence = 1/2 ∧
      _validate_task recComplete 0 day0 = .ok (vt2, ws2) ∧
      vt2.confidence = 1 := by
  obtain ⟨vt1, ws1, h1, hb⟩ :
      ∃ vt ws, _validate_task recBothMissing 0 day0 = .ok (vt, ws) ∧ True :=
    ⟨_, _, rfl, trivial⟩
  obtain ⟨vt2, ws2, h2, hc⟩ :
      ∃ vt ws, _validate_task recComplete 0 day0 = .ok (vt, ws) ∧ True :=
    ⟨_, _, rfl, trivial⟩
  refine ⟨vt1, ws1, vt2, ws2, h1, ?_, h2, ?_⟩
  · exact (C7_confidence_formula recBothMissing 0 day0 vt1 ws1 h1).2.1
      (by decide) (by decide)
  · exact (C7_confidence_formula recComplete 0 day0 vt2 ws2 h2).2.2
      (by decide) (by decide)

/-!
Claim C6 — weight overrides replace preset entries and the vector is then
renormalized to sum 1 (skipped when the new sum is not positive); the
`smart` strategy with urgency overridden to 2 yields
urgency weight 2/(2+0.35+0.15+0.15).  Confirmed.
-/

/-- C6: when an override mapping is supplied (non-empty, as a Python falsy
empty dict skips the block) and the overridden vector has positive sum,
the resolver renormalizes so the four weights sum to 1; in particular
overriding only urgency to 2 under `smart` yields weights summing to 1
with urgency weight `2/(2+0.35+0.15+0.15)`. -/
theorem C6_override_renormalization (strategy : String)
    (ov : List (String × ℚ)) (hne : ov.isEmpty = false)
    (hpos : 0 < (applyOverrides (strategyPreset strategy) ov).total) :
    (_get_strategy_weights strategy (some ov)).total = 1 ∧
    (_get_strategy_weights "smart" (some [("urgency", 2)])).urgency =
      2 / (2 + 0.35 + 0.15 + 0.15) ∧
    (_get_strategy_weights "smart" (some [("urgency", 2)])).total = 1 := by
  have hA : applyOverrides (strategyPreset "smart") [("urgency", 2)] =
      ⟨2, 0.35, 0.15, 0.15⟩ := rfl
  have hT : (Weights.mk 2 0.35 0.15 0.15).total = 2.65 := by
    norm_num [Weights.total]
  have hres : _get_strategy_weights "smart" (some [("urgency", 2)]) =
      ⟨2/2.65, 0.35/2.65, 0.15/2.65, 0.15/2.65⟩ := by
    simp only [_get_strategy_weights, List.isEmpty, hA, hT]
    rw [if_neg (by simp), if_pos (by norm_num)]
  refine ⟨?_, ?_, ?_⟩
  · simp only [_get_strategy_weights, hne, Bool.false_eq_true, if_false,
      if_pos hpos]
    unfold Weights.total at hpos ⊢
    field_simp
  · rw [hres]
    norm_num
  · rw [hres]
    norm_num [Weights.total]

/-- C6 (witness): the theorem applied at the concrete override of the
claim: strategy `smart`, urgency overridden to 2. -/
theorem C6_override_renormalization_witness :
    (_get_strategy_weights "smart" (some [("urgency", 2)])).total = 1 ∧
    (_get_strategy_weights "smart" (some [("urgency", 2)])).urgency =
      2 / (2 + 0.35 + 0.15 + 0.15) := by
  have hA : applyOverrides (strategyPreset "smart") [("urgency", 2)] =
      ⟨2, 0.35, 0.15, 0.15⟩ := rfl
  have h := C6_override_renormalization "smart" [("urgency", 2)]
    (by decide) (by rw [hA]; norm_num [Weights.total])
  exact ⟨h.1, h.2.1⟩

/-!
Facts about the engine sort and the validation loop.
-/

/-- Membership in an insertion step. -/
theorem insertScored_mem (t : STask) (l : List STask) (x : STask) :
    x ∈ insertScored t l ↔ x = t ∨ x ∈ l := by
  induction l with
  | nil => simp [insertScored]
  | cons h rest ih =>
    unfold insertScored
    split
    · simp
    · simp only [List.mem_cons, ih]
      tauto

/-- Membership is preserved by the engine sort. -/
theorem sortByScoreDesc_mem (l : List STask) (x : STask) :
    x ∈ sortByScoreDesc l ↔ x ∈ l := by
  induction l with
  | nil => simp [sortByScoreDesc]
  | cons h rest ih =>
    unfold sortByScoreDesc
    rw [insertScored_mem, ih]
    simp [eq_comm]

/-- Length is preserved by an insertion step. -/
theorem insertScored_length (t : STask) (l : List STask) :
    (insertScored t l).length = l.length + 1 := by
  induction l with
  | nil => rfl
  | cons h rest ih =>
    unfold insertScored
    split
    · rfl
    · simp [ih]

/-- Length is preserved by the engine sort. -/
theorem sortByScoreDesc_length (l : List STask) :
    (sortByScoreDesc l).length = l.length := by
  induction l with
  | nil => rfl
  | cons h rest ih =>
    unfold sortByScoreDesc
    rw [insertScored_length, ih]
    rfl

/-- Inserting into a descending-score list keeps it descending. -/
theorem insertScored_pairwise (t : STask) (l : List STask)
    (hl : l.Pairwise (fun a b => b.score ≤ a.score)) :
    (insertScored t l).Pairwise (fun a b => b.score ≤ a.score) := by
  induction l with
  | nil => simp [insertScored]
  | cons h rest ih =>
    rw [List.pairwise_cons] at hl
    unfold insertScored
    split
    · rename_i hle
      refine List.Pairwise.cons ?_ (List.Pairwise.cons hl.1 hl.2)
      intro b hb
      rcases List.mem_cons.mp hb with rfl | hb
      · exact hle
      · exact le_trans (hl.1 b hb) hle
    · rename_i hgt
      refine List.Pairwise.cons ?_ (ih hl.2)
      intro b hb
      rcases (insertScored_mem t rest b).mp hb with rfl | hb
      · exact le_of_lt (lt_of_not_ge hgt)
      · exact hl.1 b hb

/-- The engine sort produces a weakly descending score sequence. -/
theorem sortByScoreDesc_pairwise (l : List STask) :
    (sortByScoreDesc l).Pairwise (fun a b => b.score ≤ a.score) := by
  induction l with
  | nil => exact List.Pairwise.nil
  | cons h rest ih => exact insertScored_pairwise h (sortByScoreDesc rest) ih

/-- The validation loop yields one validated task per input record. -/
theorem validateAllFrom_length (today : Int) :
    ∀ (tasks : List RawRecord) (idx : Nat) (vts : List VTask)
      (ws : List String),
      validateAllFrom idx today tasks = .ok (vts, ws) →
      vts.length = tasks.length := by
  intro tasks
  induction tasks with
  | nil =>
    intro idx vts ws h
    simp only [validateAllFrom] at h
    simp only [Except.ok.injEq, Prod.mk.injEq] at h
    rw [← h.1]
    rfl
  | cons r rest ih =>
    intro idx vts ws h
    simp only [validateAllFrom, bind, Except.bind] at h
    cases h1 : _validate_task r idx today with
    | error e => rw [h1] at h; exact absurd h (by simp)
    | ok p =>
      rw [h1] at h
      cases h2 : validateAllFrom (idx + 1) today rest with
      | error e => rw [h2] at h; exact absurd h (by simp)
      | ok q =>
        rw [h2] at h
        simp only [pure, Except.pure, Except.ok.injEq, Prod.mk.injEq] at h
        rw [← h.1]
        simp [ih (idx + 1) q.1 q.2 (by rw [h2])]

/-- Every validated task in the loop output comes from `_validate_task`
on some input record, in particular with `dependency_issue = false`. -/
theorem validateAllFrom_issue_false (today : Int) :
    ∀ (tasks : List RawRecord) (idx : Nat) (vts : List VTask)
      (ws : List String),
      validateAllFrom idx today tasks = .ok (vts, ws) →
      ∀ vt ∈ vts, vt.dependency_issue = false := by
  intro tasks
  induction tasks with
  | nil =>
    intro idx vts ws h
    simp only [validateAllFrom, Except.ok.injEq, Prod.mk.injEq] at h
    rw [← h.1]
    intro vt hvt
    exact absurd hvt (List.not_mem_nil vt)
  | cons r rest ih =>
    intro idx vts ws h
    simp only [validateAllFrom, bind, Except.bind] at h
    cases h1 : _validate_task r idx today with
    | error e => rw [h1] at h; exact absurd h (by simp)
    | ok p =>
      rw [h1] at h
      cases h2 : validateAllFrom (idx + 1) today rest with
      | error e => rw [h2] at h; exact absurd h (by simp)
      | ok q =>
        rw [h2] at h
        simp only [pure, Except.pure, Except.ok.injEq, Prod.mk.injEq] at h
        rw [← h.1]
        intro vt hvt
        rcases List.mem_cons.mp hvt with heq | hvt
        · subst heq
          exact _validate_task_issue_false r idx today p.1 p.2 (by rw [h1])
        · exact ih (idx + 1) q.1 q.2 (by rw [h2]) vt hvt

/-- On a successfully validated non-empty batch, `score_tasks` reaches the
main branch. -/
theorem score_tasks_ok (tasks : List RawRecord) (strategy : String)
    (ov : Option (List (String × ℚ))) (today : Int)
    (vts : List VTask) (ws : List String)
    (h : validateAllFrom 0 today tasks = .ok (vts, ws)) (hne : vts ≠ []) :
    score_tasks tasks strategy ov today =
      .ok ⟨sortByScoreDesc (scorePass (markCircular vts) today
          (_get_strategy_weights strategy ov)),
        warningsAfterCycle vts ws⟩ := by
  simp only [score_tasks, h]
  cases vts with
  | nil => exact absurd rfl hne
  | cons v rest => rfl

/-- On a successfully validated empty batch, `score_tasks` returns the
empty result immediately. -/
theorem score_tasks_empty (tasks : List RawRecord) (strategy : String)
    (ov : Option (List (String × ℚ))) (today : Int) (ws : List String)
    (h : validateAllFrom 0 today tasks = .ok ([], ws)) :
    score_tasks tasks strategy ov today = .ok ⟨[], ws⟩ := by
  simp only [score_tasks, h]
  rfl

/-!
Claim C9 — the returned task list is sorted by score in descending order.
Confirmed.
-/

/-- C9: whenever normalization succeeds, `score_tasks` returns a task list
whose scores are weakly descending: no task appears before one with a
strictly higher score. -/
theorem C9_sorted_descending (tasks : List RawRecord) (strategy : String)
    (ov : Option (List (String × ℚ))) (today : Int)
    (vts : List VTask) (ws : List String)
    (h : validateAllFrom 0 today tasks = .ok (vts, ws)) :
    ∃ res, score_tasks tasks strategy ov today = .ok res ∧
      res.tasks.Pairwise (fun a b => b.score ≤ a.score) := by
  by_cases hv : vts = []
  · subst hv
    exact ⟨⟨[], ws⟩, score_tasks_empty tasks strategy ov today ws h,
      List.Pairwise.nil⟩
  · exact ⟨_, score_tasks_ok tasks strategy ov today vts ws h hv,
      sortByScoreDesc_pairwise _⟩

/-- C9 (witness): the theorem applied to a concrete two-record batch. -/
theorem C9_sorted_descending_witness :
    ∃ res, score_tasks [recComplete, recBothMissing] "smart" none day0 =
        .ok res ∧
      res.tasks.Pairwise (fun a b => b.score ≤ a.score) := by
  obtain ⟨vts, ws, hok⟩ : ∃ vts ws,
      validateAllFrom 0 day0 [recComplete, recBothMissing] = .ok (vts, ws) :=
    ⟨_, _, rfl⟩
  exact C9_sorted_descending [recComplete, recBothMissing] "smart" none day0
    vts ws hok

/-!
Claim C10 — one scored task per input record on every non-empty batch
whose normalization succeeds, including empty mappings and duplicate ids.
Confirmed.
-/

/-- C10: for every non-empty batch on which normalization succeeds,
`score_tasks` returns exactly one scored task per input record: the output
length equals the input length, so no record is dropped. -/
theorem C10_no_record_dropped (tasks : List RawRecord) (strategy : String)
    (ov : Option (List (String × ℚ))) (today : Int)
    (vts : List VTask) (ws : List String) (hne : tasks ≠ [])
    (h : validateAllFrom 0 today tasks = .ok (vts, ws)) :
    ∃ res, score_tasks tasks strategy ov today = .ok res ∧
      res.tasks.length = tasks.length := by
  have hlen := validateAllFrom_length today tasks 0 vts ws h
  have hvne : vts ≠ [] := by
    intro hv
    subst hv
    exact hne (List.eq_nil_of_length_eq_zero hlen.symm)
  refine ⟨_, score_tasks_ok tasks strategy ov today vts ws h hvne, ?_⟩
  simp only [sortByScoreDesc_length, scorePass, markCircular,
    List.length_map]
  exact hlen

/-- C10 (witness): the theorem applied to the concrete three-record batch
with a duplicated id (and, separately, one whose records are empty
mappings). -/
theorem C10_no_record_dropped_witness :
    (∃ res, score_tasks shadowBatch "smart" none day0 = .ok res ∧
      res.tasks.length = 3) ∧
    (∃ res, score_tasks [[], []] "fast" none day0 = .ok res ∧
      res.tasks.length = 2) := by
  constructor
  · obtain ⟨vts, ws, hok⟩ : ∃ vts ws,
        validateAllFrom 0 day0 shadowBatch = .ok (vts, ws) := ⟨_, _, rfl⟩
    exact C10_no_record_dropped shadowBatch "smart" none day0 vts ws
      (by simp [shadowBatch]) hok
  · obtain ⟨vts, ws, hok⟩ : ∃ vts ws,
        validateAllFrom 0 day0 [[], []] = .ok (vts, ws) := ⟨_, _, rfl⟩
    exact C10_no_record_dropped [[], []] "fast" none day0 vts ws
      (by simp) hok

/-!
Claim C3 — corrected.  The detector flags every id on the DFS path that
ran into a cycle, so a task that merely leads into a cycle (and lies on no
cycle itself) is flagged too.  What does hold: `dependency_issue` is true
exactly on the ids of the set the detector returns.
-/

/-- C3 (counterexample): in the batch `A → B → C → B` the only cycle is
`B → C → B`, yet the detector also returns `A`, a task on no cycle, and
the orchestrator therefore sets `dependency_issue` on `A`.  This refutes
"dependency_issue is set true only on tasks that participate in a cycle". -/
theorem C3_lead_in_task_flagged :
    (.atom (.str "A") : RawValue) ∈ _detect_circular_dependencies leadInBatch ∧
    onDependencyCycle leadInBatch (.atom (.str "A")) = false ∧
    onDependencyCycle leadInBatch (.atom (.str "B")) = true ∧
    onDependencyCycle leadInBatch (.atom (.str "C")) = true := by decide

/-- C3 (amended): for every batch whose normalization succeeds,
`score_tasks` sets `dependency_issue = true` on exactly the tasks whose id
lies in the set returned by `_detect_circular_dependencies`; that set can
strictly contain the cycle participants (see the counterexample). -/
theorem C3_flag_iff_detected (tasks : List RawRecord) (strategy : String)
    (ov : Option (List (String × ℚ))) (today : Int)
    (vts : List VTask) (ws : List String)
    (h : validateAllFrom 0 today tasks = .ok (vts, ws)) :
    ∃ res, score_tasks tasks strategy ov today = .ok res ∧
      ∀ t ∈ res.tasks,
        (t.dependency_issue = true ↔
          t.id ∈ _detect_circular_dependencies vts) := by
  by_cases hv : vts = []
  · subst hv
    refine ⟨⟨[], ws⟩, score_tasks_empty tasks strategy ov today ws h, ?_⟩
    intro t ht
    exact absurd ht (List.not_mem_nil t)
  · refine ⟨_, score_tasks_ok tasks strategy ov today vts ws h hv, ?_⟩
    intro t ht
    rw [sortByScoreDesc_mem] at ht
    unfold scorePass at ht
    rw [List.mem_map] at ht
    obtain ⟨m, hm, hteq⟩ := ht
    unfold markCircular at hm
    rw [List.mem_map] at hm
    obtain ⟨v, hvmem, hmeq⟩ := hm
    have hvissue := validateAllFrom_issue_false today tasks 0 vts ws h v hvmem
    subst hteq
    by_cases hc : v.id ∈ _detect_circular_dependencies vts
    · rw [if_pos hc] at hmeq
      subst hmeq
      exact ⟨fun _ => hc, fun _ => rfl⟩
    · rw [if_neg hc] at hmeq
      subst hmeq
      constructor
      · intro hcontra
        rw [hvissue] at hcontra
        exact absurd hcontra (by simp)
      · intro hmem
        exact absurd hmem hc

/-- C3 (witness): the amended theorem applied to a concrete batch with a
mutual dependency, where both flagged tasks are exactly the detector
output. -/
theorem C3_flag_iff_detected_witness :
    ∃ res, score_tasks [recMutualA, recMutualB] "smart" none day0 =
        .ok res ∧
      ∀ t ∈ res.tasks,
        (t.dependency_issue = true ↔
          t.id ∈ _detect_circular_dependencies
            (match validateAllFrom 0 day0 [recMutualA, recMutualB] with
             | .ok (vts, _) => vts
             | .error _ => [])) := by
  obtain ⟨vts, ws, hok⟩ : ∃ vts ws,
      validateAllFrom 0 day0 [recMutualA, recMutualB] = .ok (vts, ws) :=
    ⟨_, _, rfl⟩
  obtain ⟨res, hres, hiff⟩ :=
    C3_flag_iff_detected [recMutualA, recMutualB] "smart" none day0 vts ws hok
  refine ⟨res, hres, ?_⟩
  rw [hok]
  exact hiff

/-!
Real-rounding helper lemmas and exponential bounds, for claims C1 and C4.
-/

/-- Monotonicity of four-decimal rounding. -/
theorem round4R_mono {x y : ℝ} (h : x ≤ y) : round4R x ≤ round4R y := by
  unfold round4R
  have h2 := roundMono
    (mul_le_mul_of_nonneg_right h (by norm_num : (0:ℝ) ≤ 10000))
  exact (div_le_div_right (by norm_num)).mpr (Int.cast_le.mpr h2)

/-- Monotonicity of two-decimal rounding. -/
theorem round2R_mono {x y : ℝ} (h : x ≤ y) : round2R x ≤ round2R y := by
  unfold round2R
  have h2 := roundMono
    (mul_le_mul_of_nonneg_right h (by norm_num : (0:ℝ) ≤ 100))
  exact (div_le_div_right (by norm_num)).mpr (Int.cast_le.mpr h2)

/-- Four-decimal rounding fixes exact multiples of one ten-thousandth. -/
theorem round4R_exact (x : ℝ) (k : ℤ) (h : x * 10000 = (k : ℝ)) :
    round4R x = x := by
  unfold round4R
  rw [h, round_intCast, ← h]
  ring

/-- Two-decimal rounding fixes exact multiples of one hundredth. -/
theorem round2R_exact (x : ℝ) (k : ℤ) (h : x * 100 = (k : ℝ)) :
    round2R x = x := by
  unfold round2R
  rw [h, round_intCast, ← h]
  ring

/-- A crude but sufficient lower bound on `e^14`. -/
theorem exp_fourteen_large : (16384:ℝ) < Real.exp 14 := by
  have h1 : (2:ℝ) < Real.exp 1 := lt_trans (by norm_num) Real.exp_one_gt_d9
  have h3 : Real.exp 14 = Real.exp 1 ^ (14:ℕ) := by
    rw [← Real.exp_nat_mul]
    norm_num
  calc (16384:ℝ) = 2 ^ (14:ℕ) := by norm_num
  _ < Real.exp 1 ^ (14:ℕ) := by gcongr
  _ = Real.exp 14 := h3.symm

/-- For at least 196 days overdue the exponential term is below
`1/16000`, hence invisible at four decimals. -/
theorem overdueExp_small (d : ℤ) (hd : (196:ℤ) ≤ d) :
    Real.exp (-(d:ℝ) / 14) < 1/16000 := by
  have hcast : (196:ℝ) ≤ (d:ℝ) := by exact_mod_cast hd
  have hexp : Real.exp 14 ≤ Real.exp ((d:ℝ)/14) :=
    Real.exp_le_exp.mpr (by linarith)
  have h16 : (16000:ℝ) < Real.exp ((d:ℝ)/14) := by
    calc (16000:ℝ) < 16384 := by norm_num
    _ < Real.exp 14 := exp_fourteen_large
    _ ≤ _ := hexp
  have heq : -(d:ℝ)/14 = -((d:ℝ)/14) := by ring
  rw [heq, Real.exp_neg, one_div]
  exact inv_lt_inv_of_lt (by norm_num) h16

/-- Both clamps are inactive and the rounded overdue urgency collapses to
exactly 0.2 once the task is at least 196 days overdue. -/
theorem overdueUrgency_far (d : ℤ) (hd : (196:ℤ) ≤ d) :
    overdueUrgency d = 0.2 := by
  have hsmall := overdueExp_small d hd
  have hpos : (0:ℝ) < Real.exp (-(d:ℝ)/14) := Real.exp_pos _
  unfold overdueUrgency
  have hmax : max 0 (0.20 + (1 - 0.20) * Real.exp (-(d:ℝ)/14)) =
      0.20 + (1 - 0.20) * Real.exp (-(d:ℝ)/14) := max_eq_right (by nlinarith)
  have hmin : min 1 (0.20 + (1 - 0.20) * Real.exp (-(d:ℝ)/14)) =
      0.20 + (1 - 0.20) * Real.exp (-(d:ℝ)/14) := min_eq_right (by nlinarith)
  rw [hmax, hmin]
  unfold round4R
  have hr : round ((0.20 + (1 - 0.20) * Real.exp (-(d:ℝ)/14)) * 10000) =
      2000 := by
    rw [round_eq, Int.floor_eq_iff]
    constructor
    · push_cast
      nlinarith
    · push_cast
      nlinarith
  rw [hr]
  norm_num

/-- The overdue urgency is weakly antitone in the days-overdue count. -/
theorem overdueUrgency_antitone {d1 d2 : ℤ} (h : d1 ≤ d2) :
    overdueUrgency d2 ≤ overdueUrgency d1 := by
  unfold overdueUrgency
  apply round4R_mono
  have hc : (d1:ℝ) ≤ (d2:ℝ) := by exact_mod_cast h
  have hE : Real.exp (-(d2:ℝ)/14) ≤ Real.exp (-(d1:ℝ)/14) :=
    Real.exp_le_exp.mpr (by linarith)
  exact min_le_min le_rfl (max_le_max le_rfl (by nlinarith))

/-- The overdue urgency never drops below the 0.20 floor. -/
theorem overdueUrgency_ge (d : ℤ) : (0.2:ℝ) ≤ overdueUrgency d := by
  have hpos : (0:ℝ) < Real.exp (-(d:ℝ)/14) := Real.exp_pos _
  have h02 : (0.2:ℝ) ≤
      min 1 (max 0 (0.20 + (1 - 0.20) * Real.exp (-(d:ℝ)/14))) := by
    refine le_min (by norm_num) ?_
    calc (0.2:ℝ) ≤ 0.20 + (1 - 0.20) * Real.exp (-(d:ℝ)/14) := by nlinarith
    _ ≤ max 0 _ := le_max_right _ _
  have hm := round4R_mono h02
  rw [round4R_exact 0.2 2000 (by norm_num)] at hm
  exact hm

/-- The overdue urgency always lies in `[0, 1]`. -/
theorem overdueUrgency_bounds (d : ℤ) :
    0 ≤ overdueUrgency d ∧ overdueUrgency d ≤ 1 := by
  unfold overdueUrgency
  constructor
  · have h0 : (0:ℝ) ≤
        min 1 (max 0 (0.20 + (1 - 0.20) * Real.exp (-(d:ℝ)/14))) :=
      le_min (by norm_num) (le_max_left _ _)
    have hm := round4R_mono h0
    rwa [round4R_exact 0 0 (by norm_num)] at hm
  · have h1 : min 1 (max 0 (0.20 + (1 - 0.20) * Real.exp (-(d:ℝ)/14))) ≤ 1 :=
      min_le_left _ _
    have hm := round4R_mono h1
    rwa [round4R_exact 1 10000 (by norm_num)] at hm

/-!
Claim C4 — corrected.  The unrounded overdue urgency is strictly
decreasing, but the engine rounds it to 4 decimals (line 273), which
collapses far-apart overdue counts onto exactly 0.2000; strictness fails.
Weak monotonicity and the 0.20 floor do hold.
-/

/-- C4 (counterexample): the tasks 200 and 210 days overdue have equal
urgency sub-scores — both round to exactly 0.2 — refuting the claimed
strict inequality `urgency(d1) > urgency(d2)` for `d1 < d2`. -/
theorem C4_strictness_fails_after_rounding :
    taskOverdue200.past_due = true ∧ taskOverdue210.past_due = true ∧
    day0 - taskOverdue200.due_date < day0 - taskOverdue210.due_date ∧
    urgencyScore taskOverdue200 day0 = 0.2 ∧
    urgencyScore taskOverdue210 day0 = 0.2 ∧
    ¬ urgencyScore taskOverdue210 day0 < urgencyScore taskOverdue200 day0 := by
  have h200 : day0 - taskOverdue200.due_date = 200 := by
    show day0 - (day0 - 200) = 200
    ring
  have h210 : day0 - taskOverdue210.due_date = 210 := by
    show day0 - (day0 - 210) = 210
    ring
  have hu200 : urgencyScore taskOverdue200 day0 = 0.2 := by
    unfold urgencyScore
    rw [show taskOverdue200.past_due = true from rfl, if_pos rfl, h200]
    exact overdueUrgency_far 200 (by norm_num)
  have hu210 : urgencyScore taskOverdue210 day0 = 0.2 := by
    unfold urgencyScore
    rw [show taskOverdue210.past_due = true from rfl, if_pos rfl, h210]
    exact overdueUrgency_far 210 (by norm_num)
  refine ⟨rfl, rfl, by rw [h200, h210]; norm_num, hu200, hu210, ?_⟩
  rw [hu200, hu210]
  exact lt_irrefl _

/-- C4 (amended): for two overdue tasks, the one fewer days overdue has a
weakly greater (not strictly greater) urgency sub-score, and both
sub-scores are at least 0.20. -/
theorem C4_overdue_urgency_weakly_antitone (t1 t2 : VTask) (today : Int)
    (h1 : t1.past_due = true) (h2 : t2.past_due = true)
    (hlt : today - t1.due_date < today - t2.due_date) :
    urgencyScore t2 today ≤ urgencyScore t1 today ∧
    (0.2:ℝ) ≤ urgencyScore t1 today ∧ (0.2:ℝ) ≤ urgencyScore t2 today := by
  unfold urgencyScore
  rw [h1, h2, if_pos rfl, if_pos rfl]
  exact ⟨overdueUrgency_antitone (le_of_lt hlt), overdueUrgency_ge _,
    overdueUrgency_ge _⟩

/-- C4 (witness): the amended theorem at the concrete 200- and 210-day
overdue tasks. -/
theorem C4_overdue_urgency_weakly_antitone_witness :
    urgencyScore taskOverdue210 day0 ≤ urgencyScore taskOverdue200 day0 ∧
    (0.2:ℝ) ≤ urgencyScore taskOverdue200 day0 := by
  have h := C4_overdue_urgency_weakly_antitone taskOverdue200 taskOverdue210
    day0 rfl rfl (by show day0 - (day0 - 200) < day0 - (day0 - 210); omega)
  exact ⟨h.1, h.2.1⟩

/-!
Sub-score bounds, for claim C1.
-/

/-- The urgency sub-score always lies in `[0, 1]` (every branch of
lines 264-297 does). -/
theorem urgencyScore_bounds (t : VTask) (today : Int) :
    0 ≤ urgencyScore t today ∧ urgencyScore t today ≤ 1 := by
  unfold urgencyScore
  split
  · exact overdueUrgency_bounds _
  · split
    · constructor <;> norm_num
    · split
      · constructor <;> norm_num
      · split
        · constructor <;> norm_num
        · split
          · constructor <;> norm_num
          · split
            · constructor <;> norm_num
            · split
              · constructor <;> norm_num
              · rename_i h30
                have h31 : (31:ℤ) ≤ t.due_date - today := by omega
                have hc : (31:ℝ) ≤ ((t.due_date - today : ℤ) : ℝ) := by
                  exact_mod_cast h31
                have hlog : 0 < Real.log (((t.due_date - today : ℤ) : ℝ) / 7) :=
                  Real.log_pos (by linarith)
                constructor
                · calc (0:ℝ) ≤ 0.05 := by norm_num
                  _ ≤ max 0.05 (1 / (1 + Real.log
                      (((t.due_date - today : ℤ) : ℝ) / 7))) := le_max_left _ _
                · refine max_le (by norm_num) ?_
                  rw [div_le_one (by linarith)]
                  linarith

/-- The effort sub-score lies in `[0, 1]` for non-negative estimated
hours. -/
theorem effortScore_bounds (t : VTask) (h : 0 ≤ t.estimated_hours) :
    0 ≤ effortScore t ∧ effortScore t ≤ 1 := by
  unfold effortScore
  have hc : (0:ℝ) ≤ (t.estimated_hours : ℝ) := by exact_mod_cast h
  constructor
  · have hm : min ((t.estimated_hours:ℝ)/40) 1 ≤ 1 := min_le_right _ _
    linarith
  · have hm : 0 ≤ min ((t.estimated_hours:ℝ)/40) 1 :=
      le_min (by linarith) (by norm_num)
    linarith

/-- The dependency sub-score lies in `[0, 1]`. -/
theorem dependencyScore_bounds (n : Nat) :
    0 ≤ dependencyScore n ∧ dependencyScore n ≤ 1 := by
  unfold dependencyScore
  constructor
  · exact le_min (by positivity) (by norm_num)
  · exact min_le_right _ _

/-- Two-decimal rounding moves a value by at most half a hundredth. -/
theorem round2R_close (x : ℝ) : x - 1/200 ≤ round2R x := by
  unfold round2R
  have h := abs_sub_round (x * 100)
  rw [abs_le] at h
  have h2 := h.2
  set r := ((round (x * 100) : ℤ) : ℝ) with hr
  linarith

/-!
Claim C1 — corrected.  Normalization performs no range check on
`importance` (or `estimated_hours`), so a task with importance far above
10 produces a weighted score far above 100 even under the preset `smart`
weights (which sum to 1).  The claimed range does hold once the validated
importance lies in the nominal `[0, 10]` band, the estimated hours are
non-negative, and the weight vector is non-negative.
-/

/-- C1 (counterexample): the fully specified record with importance 100
validates unchanged (no range check, line 130), the `smart` preset sums
to 1, and its computed score exceeds 100 — refuting `score ∈ [0,100]`
for every task and weight vector summing to 1. -/
theorem C1_score_exceeds_100 :
    _validate_task recBigImportance 0 day0 = .ok (vtBig, []) ∧
    (_get_strategy_weights "smart" none).total = 1 ∧
    100 < _calculate_task_score vtBig day0
      (_calculate_dependency_impact [vtBig])
      (_get_strategy_weights "smart" none) := by
  refine ⟨rfl, by norm_num [_get_strategy_weights, strategyPreset,
    Weights.total], ?_⟩
  have hu : urgencyScore vtBig day0 = 0.98 := by
    unfold urgencyScore
    rw [show vtBig.past_due = false from rfl]
    rw [if_neg (by simp)]
    rw [if_pos (show vtBig.due_date - day0 ≤ 0 from by
      show day0 - day0 ≤ 0
      omega)]
  have he : effortScore vtBig = 0.95 := by
    unfold effortScore
    rw [show vtBig.estimated_hours = (2:ℚ) from rfl]
    rw [show (((2:ℚ)):ℝ) = 2 by norm_num]
    rw [min_eq_left (by norm_num)]
    norm_num
  have hd : _calculate_dependency_impact [vtBig] vtBig.id = 0 := rfl
  have hds : dependencyScore 0 = 0 := by
    unfold dependencyScore
    norm_num
  unfold _calculate_task_score
  rw [hu, he, hd, hds]
  rw [show ((_get_strategy_weights "smart" none).urgency : ℝ) =
    ((0.35:ℚ):ℝ) from rfl]
  rw [show ((_get_strategy_weights "smart" none).importance : ℝ) =
    ((0.35:ℚ):ℝ) from rfl]
  rw [show ((_get_strategy_weights "smart" none).effort : ℝ) =
    ((0.15:ℚ):ℝ) from rfl]
  rw [show ((_get_strategy_weights "smart" none).dependency : ℝ) =
    ((0.15:ℚ):ℝ) from rfl]
  rw [show vtBig.importance = (100:ℚ) from rfl]
  have harg : (100:ℝ) * (((0.35:ℚ):ℝ) * 0.98 +
      ((0.35:ℚ):ℝ) * (((100:ℚ):ℝ) / 10) + ((0.15:ℚ):ℝ) * 0.95 +
      ((0.15:ℚ):ℝ) * 0) = 398.55 := by
    push_cast
    norm_num
  rw [harg, round2R_exact 398.55 39855 (by norm_num)]
  norm_num

/-- C1 (amended): for every task whose validated importance lies in
`[0, 10]` and whose estimated hours are non-negative, and every
non-negative weight vector summing to 1, the computed score lies in
`[0, 100]`. -/
theorem C1_score_in_range (t : VTask) (today : Int)
    (impact : RawValue → Nat) (w : Weights)
    (himp0 : 0 ≤ t.importance) (himp10 : t.importance ≤ 10)
    (hhours : 0 ≤ t.estimated_hours)
    (hwu : 0 ≤ w.urgency) (hwi : 0 ≤ w.importance)
    (hwe : 0 ≤ w.effort) (hwd : 0 ≤ w.dependency)
    (hsum : w.total = 1) :
    0 ≤ _calculate_task_score t today impact w ∧
      _calculate_task_score t today impact w ≤ 100 := by
  obtain ⟨hu0, hu1⟩ := urgencyScore_bounds t today
  obtain ⟨he0, he1⟩ := effortScore_bounds t hhours
  obtain ⟨hd0, hd1⟩ := dependencyScore_bounds (impact t.id)
  have hwu' : (0:ℝ) ≤ (w.urgency:ℝ) := by exact_mod_cast hwu
  have hwi' : (0:ℝ) ≤ (w.importance:ℝ) := by exact_mod_cast hwi
  have hwe' : (0:ℝ) ≤ (w.effort:ℝ) := by exact_mod_cast hwe
  have hwd' : (0:ℝ) ≤ (w.dependency:ℝ) := by exact_mod_cast hwd
  have hsum' : (w.urgency:ℝ) + (w.importance:ℝ) + (w.effort:ℝ) +
      (w.dependency:ℝ) = 1 := by
    unfold Weights.total at hsum
    exact_mod_cast hsum
  have hi0 : (0:ℝ) ≤ (t.importance:ℝ)/10 := by
    have : (0:ℝ) ≤ (t.importance:ℝ) := by exact_mod_cast himp0
    linarith
  have hi1 : (t.importance:ℝ)/10 ≤ 1 := by
    have : (t.importance:ℝ) ≤ 10 := by exact_mod_cast himp10
    linarith
  have p1 : (w.urgency:ℝ) * urgencyScore t today ≤ (w.urgency:ℝ) :=
    mul_le_of_le_one_right hwu' hu1
  have p2 : (w.importance:ℝ) * ((t.importance:ℝ)/10) ≤ (w.importance:ℝ) :=
    mul_le_of_le_one_right hwi' hi1
  have p3 : (w.effort:ℝ) * effortScore t ≤ (w.effort:ℝ) :=
    mul_le_of_le_one_right hwe' he1
  have p4 : (w.dependency:ℝ) * dependencyScore (impact t.id) ≤
      (w.dependency:ℝ) := mul_le_of_le_one_right hwd' hd1
  have q1 : 0 ≤ (w.urgency:ℝ) * urgencyScore t today := mul_nonneg hwu' hu0
  have q2 : 0 ≤ (w.importance:ℝ) * ((t.importance:ℝ)/10) :=
    mul_nonneg hwi' hi0
  have q3 : 0 ≤ (w.effort:ℝ) * effortScore t := mul_nonneg hwe' he0
  have q4 : 0 ≤ (w.dependency:ℝ) * dependencyScore (impact t.id) :=
    mul_nonneg hwd' hd0
  unfold _calculate_task_score
  constructor
  · have hm := round2R_mono (show (0:ℝ) ≤ 100 * ((w.urgency:ℝ) *
        urgencyScore t today + (w.importance:ℝ) * ((t.importance:ℝ)/10) +
        (w.effort:ℝ) * effortScore t +
        (w.dependency:ℝ) * dependencyScore (impact t.id)) by linarith)
    rwa [round2R_exact 0 0 (by norm_num)] at hm
  · have hm := round2R_mono (show 100 * ((w.urgency:ℝ) *
        urgencyScore t today + (w.importance:ℝ) * ((t.importance:ℝ)/10) +
        (w.effort:ℝ) * effortScore t +
        (w.dependency:ℝ) * dependencyScore (impact t.id)) ≤ 100 by linarith)
    rwa [round2R_exact 100 10000 (by norm_num)] at hm

/-- C1 (witness): the amended theorem at a concrete in-range task and the
`smart` preset. -/
theorem C1_score_in_range_witness :
    0 ≤ _calculate_task_score taskLeadA day0
      (_calculate_dependency_impact [taskLeadA]) ⟨0.35, 0.35, 0.15, 0.15⟩ ∧
    _calculate_task_score taskLeadA day0
      (_calculate_dependency_impact [taskLeadA]) ⟨0.35, 0.35, 0.15, 0.15⟩ ≤
      100 :=
  C1_score_in_range taskLeadA day0 (_calculate_dependency_impact [taskLeadA])
    ⟨0.35, 0.35, 0.15, 0.15⟩ (by norm_num [taskLeadA]) (by norm_num [taskLeadA])
    (by norm_num [taskLeadA]) (by norm_num) (by norm_num) (by norm_num)
    (by norm_num) (by norm_num [Weights.total])

/-!
Claim C8 — analysis of the DFS cycle detector.  Equation lemmas for the
four branches of `dfsVisit`, then state invariants.
-/

/-- `dfsVisit` with no fuel is the identity (dead code: the driver always
supplies enough fuel). -/
theorem dfsVisit_zero (m : RawValue → Option VTask) (tid : RawValue)
    (path : Finset RawValue) (st : DetectSt) :
    dfsVisit m 0 tid path st = (st, false) := rfl

/-- Branch of lines 166-169: the id is on the recursion stack, so the
whole current path is added to the circular set. -/
theorem dfsVisit_hit (m : RawValue → Option VTask) (fuel : Nat)
    (tid : RawValue) (path : Finset RawValue) (st : DetectSt)
    (h1 : tid ∈ st.recStack) :
    dfsVisit m (fuel + 1) tid path st =
      ({ st with circular := st.circular ∪ path }, true) := by
  simp only [dfsVisit]
  rw [if_pos h1]

/-- Branch of lines 171-172: an already fully visited id is skipped. -/
theorem dfsVisit_seen (m : RawValue → Option VTask) (fuel : Nat)
    (tid : RawValue) (path : Finset RawValue) (st : DetectSt)
    (h1 : tid ∉ st.recStack) (h2 : tid ∈ st.visited) :
    dfsVisit m (fuel + 1) tid path st = (st, false) := by
  simp only [dfsVisit]
  rw [if_neg h1, if_pos h2]

/-- Branch of lines 174-186 for an id absent from the map: mark visited,
push and pop the recursion stack, visit no dependencies. -/
theorem dfsVisit_fresh_none (m : RawValue → Option VTask) (fuel : Nat)
    (tid : RawValue) (path : Finset RawValue) (st : DetectSt)
    (h1 : tid ∉ st.recStack) (h2 : tid ∉ st.visited) (hm : m tid = none) :
    dfsVisit m (fuel + 1) tid path st =
      (⟨insert tid st.visited, (insert tid st.recStack).erase tid,
        st.circular⟩, false) := by
  simp only [dfsVisit]
  rw [if_neg h1, if_neg h2, hm]

/-- Branch of lines 174-186 for a mapped id: mark visited, push the
recursion stack, fold over the dependencies, pop the stack. -/
theorem dfsVisit_fresh_some (m : RawValue → Option VTask) (fuel : Nat)
    (tid : RawValue) (path : Finset RawValue) (st : DetectSt) (task : VTask)
    (h1 : tid ∉ st.recStack) (h2 : tid ∉ st.visited)
    (hm : m tid = some task) :
    dfsVisit m (fuel + 1) tid path st =
      (⟨(depFold (fun v p s => dfsVisit m fuel v p s) m tid
            (insert tid path) task.dependencies
            ⟨insert tid st.visited, insert tid st.recStack,
              st.circular⟩).visited,
        (depFold (fun v p s => dfsVisit m fuel v p s) m tid
            (insert tid path) task.dependencies
            ⟨insert tid st.visited, insert tid st.recStack,
              st.circular⟩).recStack.erase tid,
        (depFold (fun v p s => dfsVisit m fuel v p s) m tid
            (insert tid path) task.dependencies
            ⟨insert tid st.visited, insert tid st.recStack,
              st.circular⟩).circular⟩, false) := by
  simp only [dfsVisit]
  rw [if_neg h1, if_neg h2, hm]

/-- The dependency fold preserves the recursion stack whenever the
recursive call does. -/
theorem depFold_recStack
    (rec : RawValue → Finset RawValue → DetectSt → DetectSt × Bool)
    (hrec : ∀ v p s, ((rec v p s).1).recStack = s.recStack)
    (m : RawValue → Option VTask) (tid : RawValue) (path : Finset RawValue) :
    ∀ (deps : List String) (st : DetectSt),
      (depFold rec m tid path deps st).recStack = st.recStack := by
  intro deps
  induction deps with
  | nil => intro st; rfl
  | cons d rest ih =>
    intro st
    unfold depFold
    by_cases hs : (m (depKey d)).isSome
    · rw [if_pos hs]
      by_cases hb : (rec (depKey d) path st).2
      · rw [if_pos hb, ih]
        exact hrec _ _ _
      · rw [if_neg hb, ih]
        exact hrec _ _ _
    · rw [if_neg hs, ih]

/-- The dependency fold only grows the visited set whenever the recursive
call does. -/
theorem depFold_visited_mono
    (rec : RawValue → Finset RawValue → DetectSt → DetectSt × Bool)
    (hrec : ∀ v p s, s.visited ⊆ ((rec v p s).1).visited)
    (m : RawValue → Option VTask) (tid : RawValue) (path : Finset RawValue) :
    ∀ (deps : List String) (st : DetectSt),
      st.visited ⊆ (depFold rec m tid path deps st).visited := by
  intro deps
  induction deps with
  | nil => intro st; exact subset_refl _
  | cons d rest ih =>
    intro st
    unfold depFold
    by_cases hs : (m (depKey d)).isSome
    · rw [if_pos hs]
      by_cases hb : (rec (depKey d) path st).2
      · rw [if_pos hb]
        have hmid : st.visited ⊆ ({ (rec (depKey d) path st).1 with
            circular := insert tid ((rec (depKey d) path st).1).circular } :
            DetectSt).visited := hrec _ _ _
        exact subset_trans hmid (ih _)
      · rw [if_neg hb]
        exact subset_trans (hrec _ _ _) (ih _)
    · rw [if_neg hs]
      exact ih _

/-- The dependency fold only grows the circular set whenever the
recursive call does. -/
theorem depFold_circular_mono
    (rec : RawValue → Finset RawValue → DetectSt → DetectSt × Bool)
    (hrec : ∀ v p s, s.circular ⊆ ((rec v p s).1).circular)
    (m : RawValue → Option VTask) (tid : RawValue) (path : Finset RawValue) :
    ∀ (deps : List String) (st : DetectSt),
      st.circular ⊆ (depFold rec m tid path deps st).circular := by
  intro deps
  induction deps with
  | nil => intro st; exact subset_refl _
  | cons d rest ih =>
    intro st
    unfold depFold
    by_cases hs : (m (depKey d)).isSome
    · rw [if_pos hs]
      by_cases hb : (rec (depKey d) path st).2
      · rw [if_pos hb]
        have hmid : st.circular ⊆ ({ (rec (depKey d) path st).1 with
            circular := insert tid ((rec (depKey d) path st).1).circular } :
            DetectSt).circular :=
          subset_trans (hrec _ _ _) (Finset.subset_insert _ _)
        exact subset_trans hmid (ih _)
      · rw [if_neg hb]
        exact subset_trans (hrec _ _ _) (ih _)
    · rw [if_neg hs]
      exact ih _

/-- The DFS restores the recursion stack on exit (line 185). -/
theorem dfsVisit_recStack (m : RawValue → Option VTask) :
    ∀ (fuel : Nat) (tid : RawValue) (path : Finset RawValue) (st : DetectSt),
      ((dfsVisit m fuel tid path st).1).recStack = st.recStack := by
  intro fuel
  induction fuel with
  | zero => intro tid path st; rfl
  | succ fuel ih =>
    intro tid path st
    by_cases h1 : tid ∈ st.recStack
    · rw [dfsVisit_hit m fuel tid path st h1]
    · by_cases h2 : tid ∈ st.visited
      · rw [dfsVisit_seen m fuel tid path st h1 h2]
      · cases hm : m tid with
        | none =>
          rw [dfsVisit_fresh_none m fuel tid path st h1 h2 hm]
          exact Finset.erase_insert h1
        | some task =>
          rw [dfsVisit_fresh_some m fuel tid path st task h1 h2 hm]
          rw [depFold_recStack (fun v p s => dfsVisit m fuel v p s)
            (fun v p s => ih v p s) m tid (insert tid path)
            task.dependencies]
          exact Finset.erase_insert h1

/-- The DFS only grows the visited set. -/
theorem dfsVisit_visited_mono (m : RawValue → Option VTask) :
    ∀ (fuel : Nat) (tid : RawValue) (path : Finset RawValue) (st : DetectSt),
      st.visited ⊆ ((dfsVisit m fuel tid path st).1).visited := by
  intro fuel
  induction fuel with
  | zero => intro tid path st; exact subset_refl _
  | succ fuel ih =>
    intro tid path st
    by_cases h1 : tid ∈ st.recStack
    · rw [dfsVisit_hit m fuel tid path st h1]
    · by_cases h2 : tid ∈ st.visited
      · rw [dfsVisit_seen m fuel tid path st h1 h2]
      · cases hm : m tid with
        | none =>
          rw [dfsVisit_fresh_none m fuel tid path st h1 h2 hm]
          exact Finset.subset_insert _ _
        | some task =>
          rw [dfsVisit_fresh_some m fuel tid path st task h1 h2 hm]
          show st.visited ⊆ (depFold (fun v p s => dfsVisit m fuel v p s) m
            tid (insert tid path) task.dependencies
            ⟨insert tid st.visited, insert tid st.recStack,
              st.circular⟩).visited
          refine subset_trans (Finset.subset_insert tid st.visited) ?_
          exact depFold_visited_mono (fun v p s => dfsVisit m fuel v p s)
            (fun v p s => ih v p s) m tid (insert tid path)
            task.dependencies
            ⟨insert tid st.visited, insert tid st.recStack, st.circular⟩

/-- The DFS only grows the circular set. -/
theorem dfsVisit_circular_mono (m : RawValue → Option VTask) :
    ∀ (fuel : Nat) (tid : RawValue) (path : Finset RawValue) (st : DetectSt),
      st.circular ⊆ ((dfsVisit m fuel tid path st).1).circular := by
  intro fuel
  induction fuel with
  | zero => intro tid path st; exact subset_refl _
  | succ fuel ih =>
    intro tid path st
    by_cases h1 : tid ∈ st.recStack
    · rw [dfsVisit_hit m fuel tid path st h1]
      exact Finset.subset_union_left
    · by_cases h2 : tid ∈ st.visited
      · rw [dfsVisit_seen m fuel tid path st h1 h2]
      · cases hm : m tid with
        | none =>
          rw [dfsVisit_fresh_none m fuel tid path st h1 h2 hm]
        | some task =>
          rw [dfsVisit_fresh_some m fuel tid path st task h1 h2 hm]
          show st.circular ⊆ (depFold (fun v p s => dfsVisit m fuel v p s) m
            tid (insert tid path) task.dependencies
            ⟨insert tid st.visited, insert tid st.recStack,
              st.circular⟩).circular
          exact depFold_circular_mono (fun v p s => dfsVisit m fuel v p s)
            (fun v p s => ih v p s) m tid (insert tid path)
            task.dependencies
            ⟨insert tid st.visited, insert tid st.recStack, st.circular⟩

/-- After a DFS call with positive fuel, the visited id is visited. -/
theorem dfsVisit_visits (m : RawValue → Option VTask) (fuel : Nat)
    (tid : RawValue) (path : Finset RawValue) (st : DetectSt)
    (hsub : st.recStack ⊆ st.visited) :
    tid ∈ ((dfsVisit m (fuel + 1) tid path st).1).visited := by
  by_cases h1 : tid ∈ st.recStack
  · rw [dfsVisit_hit m fuel tid path st h1]
    exact hsub h1
  · by_cases h2 : tid ∈ st.visited
    · rw [dfsVisit_seen m fuel tid path st h1 h2]
      exact h2
    · cases hm : m tid with
      | none =>
        rw [dfsVisit_fresh_none m fuel tid path st h1 h2 hm]
        exact Finset.mem_insert_self _ _
      | some task =>
        rw [dfsVisit_fresh_some m fuel tid path st task h1 h2 hm]
        show tid ∈ (depFold (fun v p s => dfsVisit m fuel v p s) m tid
          (insert tid path) task.dependencies
          ⟨insert tid st.visited, insert tid st.recStack,
            st.circular⟩).visited
        refine depFold_visited_mono (fun v p s => dfsVisit m fuel v p s)
          (fun v p s => dfsVisit_visited_mono m fuel v p s) m tid
          (insert tid path) task.dependencies
          ⟨insert tid st.visited, insert tid st.recStack, st.circular⟩ ?_
        exact Finset.mem_insert_self _ _

/-- The pair invariant is symmetric. -/
theorem GoodPair.symm {x y : RawValue} {st : DetectSt}
    (h : GoodPair x y st) : GoodPair y x st :=
  ⟨fun hv hr => ⟨(h.2 hv hr).2, (h.2 hv hr).1⟩,
   fun hv hr => ⟨(h.1 hv hr).2, (h.1 hv hr).1⟩⟩

/-- The pair invariant survives growing the circular set. -/
theorem GoodPair_grow_circular {x y : RawValue} {st : DetectSt}
    {c : Finset RawValue} (hsub : st.circular ⊆ c)
    (h : GoodPair x y st) :
    GoodPair x y ⟨st.visited, st.recStack, c⟩ :=
  ⟨fun hv hr => ⟨hsub (h.1 hv hr).1, hsub (h.1 hv hr).2⟩,
   fun hv hr => ⟨hsub (h.2 hv hr).1, hsub (h.2 hv hr).2⟩⟩

/-- The pair invariant survives pushing a node onto both the visited set
and the recursion stack. -/
theorem GoodPair_push {x y tid : RawValue} {st : DetectSt}
    (h : GoodPair x y st) :
    GoodPair x y ⟨insert tid st.visited, insert tid st.recStack,
      st.circular⟩ := by
  constructor
  · intro hv hr
    exact h.1 (by
        rcases Finset.mem_insert.mp hv with heq | hv2
        · exact absurd (heq ▸ Finset.mem_insert_self tid st.recStack) hr
        · exact hv2)
      (fun hx2 => hr (Finset.mem_insert_of_mem hx2))
  · intro hv hr
    exact h.2 (by
        rcases Finset.mem_insert.mp hv with heq | hv2
        · exact absurd (heq ▸ Finset.mem_insert_self tid st.recStack) hr
        · exact hv2)
      (fun hy2 => hr (Finset.mem_insert_of_mem hy2))

/-- Growing the visited set can only shrink the unvisited count. -/
theorem card_sdiff_le_of_subset {U A B : Finset RawValue} (h : A ⊆ B) :
    (U \ B).card ≤ (U \ A).card :=
  Finset.card_le_card (Finset.sdiff_subset_sdiff (subset_refl U) h)

/-- Walk lemma: if the dependency list still contains `sx` while `x` (a
mapped id) is on the recursion stack and both `x` and the ancestor `y`
are on the current path, then the fold flags both. -/
theorem depFold_hits_stacked (m : RawValue → Option VTask) (fuel : Nat)
    (x y : RawValue) (sx : String) (hx : x = depKey sx)
    (hmx : (m x).isSome = true)
    (tid : RawValue) (path : Finset RawValue)
    (hxp : x ∈ path) (hyp2 : y ∈ path) :
    ∀ (deps : List String) (st : DetectSt),
      sx ∈ deps → x ∈ st.recStack →
      x ∈ (depFold (fun v p s => dfsVisit m (fuel + 1) v p s) m tid path
        deps st).circular ∧
      y ∈ (depFold (fun v p s => dfsVisit m (fuel + 1) v p s) m tid path
        deps st).circular := by
  intro deps
  induction deps with
  | nil =>
    intro st hmem
    exact absurd hmem (List.not_mem_nil sx)
  | cons d rest ih =>
    intro st hmem hxstack
    rcases List.mem_cons.mp hmem with heq | hrest
    · subst heq
      unfold depFold
      rw [← hx, if_pos hmx]
      simp only []
      rw [dfsVisit_hit m fuel x path st hxstack]
      simp only [if_true]
      have hmono := depFold_circular_mono
        (fun v p s => dfsVisit m (fuel + 1) v p s)
        (fun v p s => dfsVisit_circular_mono m (fuel + 1) v p s) m tid path
        rest ⟨st.visited, st.recStack,
          insert tid (st.circular ∪ path)⟩
      constructor
      · exact hmono (Finset.mem_insert_of_mem (Finset.mem_union_right _ hxp))
      · exact hmono (Finset.mem_insert_of_mem (Finset.mem_union_right _ hyp2))
    · unfold depFold
      by_cases hs : (m (depKey d)).isSome
      · rw [if_pos hs]
        by_cases hb : ((fun v p s => dfsVisit m (fuel + 1) v p s)
            (depKey d) path st).2
        · rw [if_pos hb]
          refine ih _ hrest ?_
          show x ∈ ((dfsVisit m (fuel + 1) (depKey d) path st).1).recStack
          rw [dfsVisit_recStack]
          exact hxstack
        · rw [if_neg hb]
          refine ih _ hrest ?_
          show x ∈ ((dfsVisit m (fuel + 1) (depKey d) path st).1).recStack
          rw [dfsVisit_recStack]
          exact hxstack
      · rw [if_neg hs]
        exact ih _ hrest hxstack

/-- Partner lemma: running the DFS on `y` while its mutual partner `x` is
on the recursion stack (with the stack equal to the path and enough fuel)
flags both `x` and `y`. -/
theorem dfsVisit_partner (m : RawValue → Option VTask) (U : Finset RawValue)
    (HU : ∀ v, (m v).isSome = true → v ∈ U)
    (x y : RawValue) (sx : String) (hx : x = depKey sx)
    (ty : VTask) (hmx : (m x).isSome = true) (hmy : m y = some ty)
    (hyx : sx ∈ ty.dependencies) :
    ∀ (fuel : Nat) (path : Finset RawValue) (st : DetectSt),
      (U \ st.visited).card < fuel →
      st.recStack = path → st.recStack ⊆ st.visited →
      GoodPair x y st →
      x ∈ st.recStack →
      x ∈ ((dfsVisit m fuel y path st).1).circular ∧
      y ∈ ((dfsVisit m fuel y path st).1).circular := by
  intro fuel
  cases fuel with
  | zero =>
    intro path st hcard
    omega
  | succ fuel =>
    intro path st hcard hrs hrsv hgood hxs
    by_cases h1 : y ∈ st.recStack
    · rw [dfsVisit_hit m fuel y path st h1]
      constructor
      · exact Finset.mem_union_right _ (hrs ▸ hxs)
      · exact Finset.mem_union_right _ (hrs ▸ h1)
    · by_cases h2 : y ∈ st.visited
      · rw [dfsVisit_seen m fuel y path st h1 h2]
        exact hgood.2 h2 h1
      · rw [dfsVisit_fresh_some m fuel y path st ty h1 h2 hmy]
        have hyU : y ∈ U := HU y (by rw [hmy]; rfl)
        have hymem : y ∈ U \ st.visited := Finset.mem_sdiff.mpr ⟨hyU, h2⟩
        have hcard1 : 1 ≤ (U \ st.visited).card :=
          Finset.card_pos.mpr ⟨y, hymem⟩
        obtain ⟨f, rfl⟩ : ∃ f, fuel = f + 1 := ⟨fuel - 1, by omega⟩
        have hW := depFold_hits_stacked m f x y sx hx hmx y (insert y path)
          (Finset.mem_insert_of_mem (hrs ▸ hxs))
          (Finset.mem_insert_self y path) ty.dependencies
          ⟨insert y st.visited, insert y st.recStack, st.circular⟩ hyx
          (by
            show x ∈ insert y st.recStack
            exact Finset.mem_insert_of_mem hxs)
        exact hW

/-- The dependency fold preserves the pair invariant, provided every
recursive call does (the fuel-level induction hypothesis). -/
theorem depFold_good (m : RawValue → Option VTask) (U : Finset RawValue)
    (x y : RawValue) (fuel : Nat)
    (hG : ∀ (tid2 : RawValue) (path2 : Finset RawValue) (st2 : DetectSt),
      (U \ st2.visited).card < fuel → st2.recStack = path2 →
      st2.recStack ⊆ st2.visited → GoodPair x y st2 →
      GoodPair x y ((dfsVisit m fuel tid2 path2 st2).1))
    (tid : RawValue) (path : Finset RawValue) :
    ∀ (deps : List String) (st : DetectSt),
      (U \ st.visited).card < fuel →
      st.recStack = path → st.recStack ⊆ st.visited →
      GoodPair x y st →
      GoodPair x y (depFold (fun v p s => dfsVisit m fuel v p s) m tid path
        deps st) := by
  intro deps
  induction deps with
  | nil =>
    intro st _ _ _ hg
    exact hg
  | cons d rest ih =>
    intro st hcard hrs hrsv hgood
    unfold depFold
    by_cases hs : (m (depKey d)).isSome
    · rw [if_pos hs]
      simp only []
      have hchildG : GoodPair x y ((dfsVisit m fuel (depKey d) path st).1) :=
        hG _ _ _ hcard hrs hrsv hgood
      have hcrs : ((dfsVisit m fuel (depKey d) path st).1).recStack =
          st.recStack := dfsVisit_recStack m fuel _ _ _
      have hcvis : st.visited ⊆
          ((dfsVisit m fuel (depKey d) path st).1).visited :=
        dfsVisit_visited_mono m fuel _ _ _
      by_cases hb : (dfsVisit m fuel (depKey d) path st).2
      · rw [if_pos hb]
        refine ih _ ?_ ?_ ?_ ?_
        · exact lt_of_le_of_lt (card_sdiff_le_of_subset hcvis) hcard
        · show ((dfsVisit m fuel (depKey d) path st).1).recStack = path
          rw [hcrs]
          exact hrs
        · show ((dfsVisit m fuel (depKey d) path st).1).recStack ⊆
            ((dfsVisit m fuel (depKey d) path st).1).visited
          rw [hcrs]
          exact subset_trans hrsv hcvis
        · exact GoodPair_grow_circular (Finset.subset_insert _ _) hchildG
      · rw [if_neg hb]
        refine ih _ ?_ ?_ ?_ hchildG
        · exact lt_of_le_of_lt (card_sdiff_le_of_subset hcvis) hcard
        · rw [hcrs]
          exact hrs
        · rw [hcrs]
          exact subset_trans hrsv hcvis
    · rw [if_neg hs]
      exact ih st hcard hrs hrsv hgood

/-- The dependency fold flags a mutual pair once it reaches the partner
dependency `sy` while `x` is on the recursion stack. -/
theorem depFold_partner_flag (m : RawValue → Option VTask)
    (U : Finset RawValue) (HU : ∀ v, (m v).isSome = true → v ∈ U)
    (x y : RawValue) (sx sy : String) (hx : x = depKey sx)
    (hy : y = depKey sy) (ty : VTask) (hmx : (m x).isSome = true)
    (hmy : m y = some ty) (hyx : sx ∈ ty.dependencies) (fuel : Nat)
    (hG : ∀ (tid2 : RawValue) (path2 : Finset RawValue) (st2 : DetectSt),
      (U \ st2.visited).card < fuel → st2.recStack = path2 →
      st2.recStack ⊆ st2.visited → GoodPair x y st2 →
      GoodPair x y ((dfsVisit m fuel tid2 path2 st2).1))
    (tid : RawValue) (path : Finset RawValue) :
    ∀ (deps : List String) (st : DetectSt),
      (U \ st.visited).card < fuel →
      st.recStack = path → st.recStack ⊆ st.visited → GoodPair x y st →
      x ∈ st.recStack → sy ∈ deps →
      x ∈ (depFold (fun v p s => dfsVisit m fuel v p s) m tid path deps
        st).circular ∧
      y ∈ (depFold (fun v p s => dfsVisit m fuel v p s) m tid path deps
        st).circular := by
  intro deps
  induction deps with
  | nil =>
    intro st _ _ _ _ _ hmem
    exact absurd hmem (List.not_mem_nil sy)
  | cons d rest ih =>
    intro st hcard hrs hrsv hgood hxs hmem
    rcases List.mem_cons.mp hmem with heq | hrest
    · subst heq
      unfold depFold
      rw [← hy, if_pos (by rw [hmy]; rfl)]
      simp only []
      have hD := dfsVisit_partner m U HU x y sx hx ty hmx hmy hyx fuel path
        st hcard hrs hrsv hgood hxs
      by_cases hb : (dfsVisit m fuel y path st).2
      · rw [if_pos hb]
        have hmono := depFold_circular_mono
          (fun v p s => dfsVisit m fuel v p s)
          (fun v p s => dfsVisit_circular_mono m fuel v p s) m tid path rest
          { (dfsVisit m fuel y path st).1 with
            circular := insert tid ((dfsVisit m fuel y path st).1).circular }
        exact ⟨hmono (Finset.mem_insert_of_mem hD.1),
          hmono (Finset.mem_insert_of_mem hD.2)⟩
      · rw [if_neg hb]
        have hmono := depFold_circular_mono
          (fun v p s => dfsVisit m fuel v p s)
          (fun v p s => dfsVisit_circular_mono m fuel v p s) m tid path rest
          ((dfsVisit m fuel y path st).1)
        exact ⟨hmono hD.1, hmono hD.2⟩
    · unfold depFold
      by_cases hs : (m (depKey d)).isSome
      · rw [if_pos hs]
        simp only []
        have hchildG : GoodPair x y ((dfsVisit m fuel (depKey d) path st).1) :=
          hG _ _ _ hcard hrs hrsv hgood
        have hcrs : ((dfsVisit m fuel (depKey d) path st).1).recStack =
            st.recStack := dfsVisit_recStack m fuel _ _ _
        have hcvis : st.visited ⊆
            ((dfsVisit m fuel (depKey d) path st).1).visited :=
          dfsVisit_visited_mono m fuel _ _ _
        by_cases hb : (dfsVisit m fuel (depKey d) path st).2
        · rw [if_pos hb]
          refine ih _ ?_ ?_ ?_ ?_ ?_ hrest
          · exact lt_of_le_of_lt (card_sdiff_le_of_subset hcvis) hcard
          · show ((dfsVisit m fuel (depKey d) path st).1).recStack = path
            rw [hcrs]
            exact hrs
          · show ((dfsVisit m fuel (depKey d) path st).1).recStack ⊆
              ((dfsVisit m fuel (depKey d) path st).1).visited
            rw [hcrs]
            exact subset_trans hrsv hcvis
          · exact GoodPair_grow_circular (Finset.subset_insert _ _) hchildG
          · show x ∈ ((dfsVisit m fuel (depKey d) path st).1).recStack
            rw [hcrs]
            exact hxs
        · rw [if_neg hb]
          refine ih _ ?_ ?_ ?_ hchildG ?_ hrest
          · exact lt_of_le_of_lt (card_sdiff_le_of_subset hcvis) hcard
          · rw [hcrs]
            exact hrs
          · rw [hcrs]
            exact subset_trans hrsv hcvis
          · rw [hcrs]
            exact hxs
      · rw [if_neg hs]
        exact ih st hcard hrs hrsv hgood hxs hrest

/-- Main invariant: the DFS preserves the pair invariant for a mutually
dependent mapped pair `x, y`, given the recursion stack equals the path,
is contained in the visited set, and the fuel exceeds the number of
unvisited mapped ids. -/
theorem dfsVisit_good (m : RawValue → Option VTask) (U : Finset RawValue)
    (HU : ∀ v, (m v).isSome = true → v ∈ U)
    (x y : RawValue) (sx sy : String) (hx : x = depKey sx)
    (hy : y = depKey sy) (tx ty : VTask)
    (hmx : m x = some tx) (hmy : m y = some ty)
    (hxy : sy ∈ tx.dependencies) (hyx : sx ∈ ty.dependencies) :
    ∀ (fuel : Nat) (tid : RawValue) (path : Finset RawValue) (st : DetectSt),
      (U \ st.visited).card < fuel →
      st.recStack = path → st.recStack ⊆ st.visited → GoodPair x y st →
      GoodPair x y ((dfsVisit m fuel tid path st).1) := by
  intro fuel
  induction fuel with
  | zero =>
    intro tid path st hcard
    omega
  | succ fuel ih =>
    intro tid path st hcard hrs hrsv hgood
    by_cases h1 : tid ∈ st.recStack
    · rw [dfsVisit_hit m fuel tid path st h1]
      exact GoodPair_grow_circular Finset.subset_union_left hgood
    · by_cases h2 : tid ∈ st.visited
      · rw [dfsVisit_seen m fuel tid path st h1 h2]
        exact hgood
      · cases hm : m tid with
        | none =>
          rw [dfsVisit_fresh_none m fuel tid path st h1 h2 hm]
          have hnx : tid ≠ x := by
            intro he
            rw [he, hmx] at hm
            exact Option.noConfusion hm
          have hny : tid ≠ y := by
            intro he
            rw [he, hmy] at hm
            exact Option.noConfusion hm
          rw [Finset.erase_insert h1]
          constructor
          · intro hv hr
            refine hgood.1 ?_ hr
            rcases Finset.mem_insert.mp hv with he | hv2
            · exact absurd he.symm hnx
            · exact hv2
          · intro hv hr
            refine hgood.2 ?_ hr
            rcases Finset.mem_insert.mp hv with he | hv2
            · exact absurd he.symm hny
            · exact hv2
        | some task =>
          rw [dfsVisit_fresh_some m fuel tid path st task h1 h2 hm]
          have htidU : tid ∈ U := HU tid (by rw [hm]; rfl)
          have htidmem : tid ∈ U \ st.visited :=
            Finset.mem_sdiff.mpr ⟨htidU, h2⟩
          have hcard1 :
              (U \ ((⟨insert tid st.visited, insert tid st.recStack,
                st.circular⟩ : DetectSt).visited)).card < fuel := by
            show (U \ insert tid st.visited).card < fuel
            rw [Finset.sdiff_insert, Finset.card_erase_of_mem htidmem]
            have hpos : 1 ≤ (U \ st.visited).card :=
              Finset.card_pos.mpr ⟨tid, htidmem⟩
            omega
          have hst1rs : (⟨insert tid st.visited, insert tid st.recStack,
              st.circular⟩ : DetectSt).recStack = insert tid path := by
            show insert tid st.recStack = insert tid path
            rw [hrs]
          have hst1rsv : (⟨insert tid st.visited, insert tid st.recStack,
              st.circular⟩ : DetectSt).recStack ⊆
              (⟨insert tid st.visited, insert tid st.recStack,
                st.circular⟩ : DetectSt).visited :=
            Finset.insert_subset_insert tid hrsv
          have hst1good : GoodPair x y (⟨insert tid st.visited,
              insert tid st.recStack, st.circular⟩ : DetectSt) :=
            GoodPair_push hgood
          by_cases hxeq : tid = x
          · subst hxeq
            have htask : task = tx := by
              rw [hm] at hmx
              exact Option.some.inj hmx
            have hflag := depFold_partner_flag m U HU tid y sx sy hx hy ty
              (by rw [hmx]; rfl) hmy hyx fuel ih tid (insert tid path)
              task.dependencies
              ⟨insert tid st.visited, insert tid st.recStack, st.circular⟩
              hcard1 hst1rs hst1rsv hst1good
              (Finset.mem_insert_self tid st.recStack)
              (by rw [htask]; exact hxy)
            exact ⟨fun _ _ => hflag, fun _ _ => hflag⟩
          · by_cases hyeq : tid = y
            · subst hyeq
              have htask : task = ty := by
                rw [hm] at hmy
                exact Option.some.inj hmy
              have hflag := depFold_partner_flag m U HU tid x sy sx hy hx tx
                (by rw [hmy]; rfl) hmx hxy fuel
                (fun tid2 path2 st2 hc hr hv hg =>
                  GoodPair.symm (ih tid2 path2 st2 hc hr hv
                    (GoodPair.symm hg)))
                tid (insert tid path) task.dependencies
                ⟨insert tid st.visited, insert tid st.recStack, st.circular⟩
                hcard1 hst1rs hst1rsv (GoodPair.symm hst1good)
                (Finset.mem_insert_self tid st.recStack)
                (by rw [htask]; exact hyx)
              exact ⟨fun _ _ => ⟨hflag.2, hflag.1⟩,
                fun _ _ => ⟨hflag.2, hflag.1⟩⟩
            · have hst2good := depFold_good m U x y fuel ih tid
                (insert tid path) task.dependencies
                ⟨insert tid st.visited, insert tid st.recStack, st.circular⟩
                hcard1 hst1rs hst1rsv hst1good
              constructor
              · intro hv hr
                refine hst2good.1 hv ?_
                intro hx2
                exact hr (Finset.mem_erase.mpr ⟨fun he => hxeq he.symm, hx2⟩)
              · intro hv hr
                refine hst2good.2 hv ?_
                intro hy2
                exact hr (Finset.mem_erase.mpr ⟨fun he => hyeq he.symm, hy2⟩)

/-- The driver loop maintains the pair invariant, keeps the recursion
stack empty, grows the visited set, and visits every listed task id. -/
theorem detectLoop_props (m : RawValue → Option VTask) (U : Finset RawValue)
    (HU : ∀ v, (m v).isSome = true → v ∈ U)
    (x y : RawValue) (sx sy : String) (hx : x = depKey sx)
    (hy : y = depKey sy) (tx ty : VTask)
    (hmx : m x = some tx) (hmy : m y = some ty)
    (hxy : sy ∈ tx.dependencies) (hyx : sx ∈ ty.dependencies)
    (fuel : Nat) :
    ∀ (rest : List VTask) (st : DetectSt),
      (U \ st.visited).card < fuel →
      st.recStack = ∅ → st.recStack ⊆ st.visited → GoodPair x y st →
      GoodPair x y (detectLoop m fuel rest st) ∧
      (detectLoop m fuel rest st).recStack = ∅ ∧
      st.visited ⊆ (detectLoop m fuel rest st).visited ∧
      ∀ t ∈ rest, t.id ∈ (detectLoop m fuel rest st).visited := by
  intro rest
  induction rest with
  | nil =>
    intro st hcard hrs hrsv hgood
    exact ⟨hgood, hrs, subset_refl _, fun t ht => absurd ht
      (List.not_mem_nil t)⟩
  | cons t rest ih =>
    intro st hcard hrs hrsv hgood
    unfold detectLoop
    by_cases hv : t.id ∈ st.visited
    · rw [if_pos hv]
      obtain ⟨g, r, vis, all⟩ := ih st hcard hrs hrsv hgood
      refine ⟨g, r, vis, ?_⟩
      intro u hu
      rcases List.mem_cons.mp hu with heq | hu2
      · exact heq ▸ vis hv
      · exact all u hu2
    · rw [if_neg hv]
      have hst1g : GoodPair x y ((dfsVisit m fuel t.id ∅ st).1) := by
        refine dfsVisit_good m U HU x y sx sy hx hy tx ty hmx hmy hxy hyx
          fuel t.id ∅ st hcard ?_ hrsv hgood
        exact hrs
      have hst1rs : ((dfsVisit m fuel t.id ∅ st).1).recStack = ∅ := by
        rw [dfsVisit_recStack]
        exact hrs
      have hst1vis : st.visited ⊆ ((dfsVisit m fuel t.id ∅ st).1).visited :=
        dfsVisit_visited_mono m fuel _ _ _
      have hst1rsv : ((dfsVisit m fuel t.id ∅ st).1).recStack ⊆
          ((dfsVisit m fuel t.id ∅ st).1).visited := by
        rw [dfsVisit_recStack]
        exact subset_trans hrsv hst1vis
      have hst1card : (U \ ((dfsVisit m fuel t.id ∅ st).1).visited).card <
          fuel := lt_of_le_of_lt (card_sdiff_le_of_subset hst1vis) hcard
      have htvis : t.id ∈ ((dfsVisit m fuel t.id ∅ st).1).visited := by
        obtain ⟨f, hf⟩ : ∃ f, fuel = f + 1 := ⟨fuel - 1, by omega⟩
        rw [hf]
        exact dfsVisit_visits m f t.id ∅ st hrsv
      obtain ⟨g, r, vis, all⟩ := ih _ hst1card hst1rs hst1rsv hst1g
      refine ⟨g, r, subset_trans hst1vis vis, ?_⟩
      intro u hu
      rcases List.mem_cons.mp hu with heq | hu2
      · exact heq ▸ vis htvis
      · exact all u hu2

/-- A resolvable id belongs to the batch id set. -/
theorem taskIdMap_isSome_mem_ids (tasks : List VTask) (v : RawValue)
    (h : (taskIdMap tasks v).isSome = true) : v ∈ idsFinset tasks := by
  unfold taskIdMap at h
  cases hf : tasks.reverse.find? (fun t => t.id == v) with
  | none => rw [hf] at h; exact absurd h (by simp)
  | some t =>
    have hp := List.find?_some hf
    simp only [beq_iff_eq] at hp
    have hm : t ∈ tasks.reverse := List.mem_of_find?_eq_some hf
    have hid : t.id = v := hp
    unfold idsFinset
    rw [List.mem_toFinset, ← hid]
    exact List.mem_map_of_mem _ (List.mem_reverse.mp hm)

/-- With pairwise distinct ids, the id map resolves each task to itself. -/
theorem taskIdMap_nodup (tasks : List VTask) (a : VTask)
    (hnd : (tasks.map (·.id)).Nodup) (ha : a ∈ tasks) :
    taskIdMap tasks a.id = some a := by
  unfold taskIdMap
  cases hf : tasks.reverse.find? (fun t => t.id == a.id) with
  | none =>
    rw [List.find?_eq_none] at hf
    exact absurd (by simp : (a.id == a.id) = true)
      (hf a (List.mem_reverse.mpr ha))
  | some t =>
    have hp := List.find?_some hf
    simp only [beq_iff_eq] at hp
    have hm : t ∈ tasks := List.mem_reverse.mp (List.mem_of_find?_eq_some hf)
    have hid : t.id = a.id := hp
    have heq : t = a :=
      List.inj_on_of_nodup_map hnd hm ha hid
    rw [heq]

/-- The detector flags both members of a mutually dependent pair when the
batch ids are pairwise distinct. -/
theorem detect_flags_mutual_pair (tasks : List VTask) (a b : VTask)
    (ha : a ∈ tasks) (hb : b ∈ tasks)
    (hnd : (tasks.map (·.id)).Nodup)
    (sa sb : String) (hida : a.id = depKey sa) (hidb : b.id = depKey sb)
    (hab : sb ∈ a.dependencies) (hba : sa ∈ b.dependencies) :
    a.id ∈ _detect_circular_dependencies tasks ∧
    b.id ∈ _detect_circular_dependencies tasks := by
  unfold _detect_circular_dependencies
  have hma : taskIdMap tasks a.id = some a := taskIdMap_nodup tasks a hnd ha
  have hmb : taskIdMap tasks b.id = some b := taskIdMap_nodup tasks b hnd hb
  have HU : ∀ v, ((taskIdMap tasks) v).isSome = true → v ∈ idsFinset tasks :=
    taskIdMap_isSome_mem_ids tasks
  have hcard : ((idsFinset tasks) \ (∅ : Finset RawValue)).card <
      tasks.length + 1 := by
    rw [Finset.sdiff_empty]
    have h1 : (idsFinset tasks).card ≤ (tasks.map (·.id)).length :=
      List.toFinset_card_le _
    rw [List.length_map] at h1
    omega
  have hgood0 : GoodPair a.id b.id (⟨∅, ∅, ∅⟩ : DetectSt) :=
    ⟨fun hv _ => absurd hv (Finset.not_mem_empty _),
     fun hv _ => absurd hv (Finset.not_mem_empty _)⟩
  obtain ⟨g, r, _, all⟩ := detectLoop_props (taskIdMap tasks)
    (idsFinset tasks) HU a.id b.id sa sb hida hidb a b hma hmb hab hba
    (tasks.length + 1) tasks ⟨∅, ∅, ∅⟩ hcard rfl (by
      intro v hv
      exact absurd hv (Finset.not_mem_empty _)) hgood0
  have hav := all a ha
  have hflags := g.1 hav (by
    rw [r]
    exact Finset.not_mem_empty _)
  exact hflags

/-- Scoring attaches score and priority without touching id or the
dependency flag. -/
theorem scorePass_mem_of_mem (marked : List VTask) (today : Int)
    (w : Weights) (v : VTask) (hv : v ∈ marked) :
    ∃ t ∈ scorePass marked today w, t.id = v.id ∧
      t.dependency_issue = v.dependency_issue := by
  refine ⟨_, List.mem_map_of_mem _ hv, rfl, rfl⟩

/-- A task whose id the detector returned appears in the marked list with
the dependency flag set. -/
theorem markCircular_mem_flagged (vts : List VTask) (v : VTask)
    (hv : v ∈ vts) (hf : v.id ∈ _detect_circular_dependencies vts) :
    ∃ u ∈ markCircular vts, u.id = v.id ∧ u.dependency_issue = true := by
  refine ⟨_, List.mem_map_of_mem _ hv, ?_, ?_⟩
  · rw [if_pos hf]
  · rw [if_pos hf]

/-- C8 (amended): in every batch with pairwise distinct task ids whose
normalization succeeds, a mutually dependent pair of tasks (A depends on
B's id and B on A's id) is returned by `score_tasks` with
`dependency_issue = true` on both, and the warnings list is non-empty. -/
theorem C8_mutual_dependency_flagged (tasks : List RawRecord)
    (strategy : String) (ov : Option (List (String × ℚ))) (today : Int)
    (vts : List VTask) (ws : List String)
    (h : validateAllFrom 0 today tasks = .ok (vts, ws))
    (hnd : (vts.map (·.id)).Nodup)
    (a b : VTask) (ha : a ∈ vts) (hb : b ∈ vts)
    (sa sb : String) (hida : a.id = depKey sa) (hidb : b.id = depKey sb)
    (hab : sb ∈ a.dependencies) (hba : sa ∈ b.dependencies) :
    ∃ res, score_tasks tasks strategy ov today = .ok res ∧
      res.warnings ≠ [] ∧
      (∃ t ∈ res.tasks, t.id = a.id ∧ t.dependency_issue = true) ∧
      (∃ t ∈ res.tasks, t.id = b.id ∧ t.dependency_issue = true) := by
  have hvne : vts ≠ [] := fun hv => absurd (hv ▸ ha) (List.not_mem_nil a)
  obtain ⟨hfa, hfb⟩ := detect_flags_mutual_pair vts a b ha hb hnd sa sb
    hida hidb hab hba
  refine ⟨_, score_tasks_ok tasks strategy ov today vts ws h hvne,
    ?_, ?_, ?_⟩
  · show warningsAfterCycle vts ws ≠ []
    unfold warningsAfterCycle
    rw [if_pos ⟨a.id, hfa⟩]
    simp
  · obtain ⟨u, hu, huid, huflag⟩ := markCircular_mem_flagged vts a ha hfa
    obtain ⟨t, htm, htid, htflag⟩ := scorePass_mem_of_mem (markCircular vts)
      today (_get_strategy_weights strategy ov) u hu
    exact ⟨t, (sortByScoreDesc_mem _ _).mpr htm, htid.trans huid,
      htflag.trans huflag⟩
  · obtain ⟨u, hu, huid, huflag⟩ := markCircular_mem_flagged vts b hb hfb
    obtain ⟨t, htm, htid, htflag⟩ := scorePass_mem_of_mem (markCircular vts)
      today (_get_strategy_weights strategy ov) u hu
    exact ⟨t, (sortByScoreDesc_mem _ _).mpr htm, htid.trans huid,
      htflag.trans huflag⟩

/-- C8 (witness): the amended theorem at the concrete two-task mutual
batch with distinct ids. -/
theorem C8_mutual_dependency_flagged_witness :
    ∃ res, score_tasks [recMutualA, recMutualB] "smart" none day0 =
        .ok res ∧
      res.warnings ≠ [] ∧
      (∃ t ∈ res.tasks, t.id = vtMutualA.id ∧ t.dependency_issue = true) := by
  have hval2 : validateAllFrom 0 day0 [recMutualA, recMutualB] =
      .ok ([vtMutualA, vtMutualB], []) := rfl
  obtain ⟨res, h1, h2, h3, _⟩ := C8_mutual_dependency_flagged
    [recMutualA, recMutualB] "smart" none day0 [vtMutualA, vtMutualB] []
    hval2 (by decide) vtMutualA vtMutualB (by simp) (by simp) "A" "B"
    rfl rfl (by decide) (by decide)
  exact ⟨res, h1, h2, h3⟩

/-- C8 (counterexample): the batch also containing a third record that
reuses id `A` (with no dependencies).  It shadows the first record in the
id map, the detector finds nothing, and `score_tasks` returns empty
warnings and no flagged task — although the batch does contain two tasks
with a mutual dependency.  This refutes the claim as stated. -/
theorem C8_duplicate_id_defeats_detection :
    vtMutualA.id = .atom (.str "A") ∧ vtMutualB.id = .atom (.str "B") ∧
    "B" ∈ vtMutualA.dependencies ∧ "A" ∈ vtMutualB.dependencies ∧
    validateAllFrom 0 day0 shadowBatch =
      .ok ([vtMutualA, vtMutualB, vtShadowA], []) ∧
    _detect_circular_dependencies [vtMutualA, vtMutualB, vtShadowA] = ∅ ∧
    ∃ ts, score_tasks shadowBatch "smart" none day0 = .ok ⟨ts, []⟩ ∧
      ∀ t ∈ ts, t.dependency_issue = false := by
  have hval8 : validateAllFrom 0 day0 shadowBatch =
      .ok ([vtMutualA, vtMutualB, vtShadowA], []) := rfl
  have hdet : _detect_circular_dependencies
      [vtMutualA, vtMutualB, vtShadowA] = ∅ := by decide
  have hs := score_tasks_ok shadowBatch "smart" none day0
    [vtMutualA, vtMutualB, vtShadowA] [] hval8 (by simp)
  have hw : warningsAfterCycle [vtMutualA, vtMutualB, vtShadowA] [] = [] := by
    unfold warningsAfterCycle
    rw [hdet]
    simp
  rw [hw] at hs
  refine ⟨rfl, rfl, by decide, by decide, hval8, hdet, _, hs, ?_⟩
  intro t ht
  rw [sortByScoreDesc_mem] at ht
  unfold scorePass at ht
  rw [List.mem_map] at ht
  obtain ⟨u, hu, hteq⟩ := ht
  unfold markCircular at hu
  rw [List.mem_map] at hu
  obtain ⟨v, hv, hueq⟩ := hu
  rw [hdet] at hueq
  rw [if_neg (Finset.not_mem_empty v.id)] at hueq
  subst hueq
  subst hteq
  show v.dependency_issue = false
  simp only [List.mem_cons, List.mem_singleton] at hv
  rcases hv with rfl | rfl | rfl | hv
  · rfl
  · rfl
  · rfl
  · exact absurd hv (List.not_mem_nil v)
